import Mathlib

/-!
Verification development for the VolPipelineApp repository.

The pipeline modules (`curve_filter.py`, `vol_extractor.py`,
`volatility_surface.py`, `time_series_plotter.py`) are shallowly embedded
below: CSV parsing and file I/O are abstracted to explicit data
(`CsvSource`, `Frame`), while every piece of filtering, grouping, naming
and matrix logic is translated function by function from the source.
-/

set_option maxHeartbeats 1000000

namespace VolPipeline

/-- A calendar date, as produced by `pd.to_datetime` (a pandas timestamp). -/
structure Date where
  year : Nat
  month : Nat
  day : Nat
deriving DecidableEq, Repr

/-- Timestamp comparison (lexicographic on year, month, day). -/
def dateLeB (a b : Date) : Bool :=
  decide (a.year < b.year) ||
    (decide (a.year = b.year) &&
      (decide (a.month < b.month) ||
        (decide (a.month = b.month) && decide (a.day ≤ b.day))))

/-- A date parsed from real data: the month field is a calendar month. -/
def Date.ValidMonth (d : Date) : Prop := 1 ≤ d.month ∧ d.month ≤ 12

instance (d : Date) : Decidable d.ValidMonth := by
  unfold Date.ValidMonth; infer_instance

/-- Python `str(x)` applied to a possibly-missing (NaN) value. -/
def pyStr : Option String → String
  | some s => s
  | none => "nan"

/-- `str.upper()`, character by character (kernel-reducible form). -/
def pyUpper (s : String) : String := ⟨s.data.map Char.toUpper⟩

def dropLeadingWS : List Char → List Char
  | [] => []
  | c :: cs => if c.isWhitespace then dropLeadingWS cs else c :: cs

/-- `str.strip()`: remove leading and trailing whitespace
(kernel-reducible form). -/
def pyStrip (s : String) : String :=
  ⟨(dropLeadingWS (dropLeadingWS s.data).reverse).reverse⟩

/-- Python `f"{m:02d}"` for the month numbers produced by `.dt.month`. -/
def monthStr (m : Nat) : String :=
  if m < 10 then "0" ++ toString m else toString m

/-- `isPrefixB n h` holds when the char list `n` starts the char list `h`. -/
def isPrefixB : List Char → List Char → Bool
  | [], _ => true
  | _ :: _, [] => false
  | a :: as, b :: bs => a == b && isPrefixB as bs

/-- Contiguous-substring test on char lists, as Python's `in` on strings. -/
def hasSubB (needle : List Char) : List Char → Bool
  | [] => isPrefixB needle []
  | c :: cs => isPrefixB needle (c :: cs) || hasSubB needle cs

/-- Python `needle in hay` for strings. -/
def pyIn (needle hay : String) : Bool := hasSubB needle.data hay.data

/-- Python `s.endswith(suf)`. -/
def endsWithB (s suf : String) : Bool :=
  decide (s.data.drop (s.data.length - suf.data.length) = suf.data)

/-- Insert into a sorted list, before the first element not below `a`. -/
def insertLeB {α : Type} (le : α → α → Bool) (a : α) : List α → List α
  | [] => [a]
  | b :: bs => if le a b then a :: b :: bs else b :: insertLeB le a bs

/-- Stable sort by a boolean comparison (models Python/pandas sorting). -/
def sortLeB {α : Type} (le : α → α → Bool) : List α → List α
  | [] => []
  | a :: as => insertLeB le a (sortLeB le as)

theorem insertLeB_perm {α : Type} (le : α → α → Bool) (a : α) (l : List α) :
    List.Perm (insertLeB le a l) (a :: l) := by
  induction l with
  | nil => rfl
  | cons b bs ih =>
    simp only [insertLeB]
    split
    · rfl
    · exact ((ih.cons b).trans (List.Perm.swap a b bs)).symm.symm

theorem sortLeB_perm {α : Type} (le : α → α → Bool) (l : List α) :
    List.Perm (sortLeB le l) l := by
  induction l with
  | nil => rfl
  | cons a as ih =>
    simpa [sortLeB] using (insertLeB_perm le a (sortLeB le as)).trans (ih.cons a)

/-- Code-point order on char lists (Python string comparison). -/
def charsLeB : List Char → List Char → Bool
  | [], _ => true
  | _ :: _, [] => false
  | a :: as, b :: bs => if a = b then charsLeB as bs else decide (a < b)

/-- Python `<=` on strings. -/
def strLeB (a b : String) : Bool := charsLeB a.data b.data

/-- Python `<=` on pairs of strings (tuple comparison, used by `groupby`). -/
def keyLeB (a b : String × String) : Bool :=
  if a.1 = b.1 then strLeB a.2 b.2 else strLeB a.1 b.1

/-- Mean of a list of rationals (`sum / count`). -/
def meanQ (l : List ℚ) : ℚ := l.sum / l.length

/-- The non-NaN entries of a column. -/
def definedVals (l : List (Option ℚ)) : List ℚ := l.filterMap id

/-- Remove every zero-width space, as `.str.replace` of U+200B by the
empty string. -/
def dropZW (s : String) : String := ⟨s.data.filter (fun c => c ≠ '\u200b')⟩

/-- Header cleanup: `.str.strip()` then removal of zero-width spaces. -/
def cleanName (s : String) : String := dropZW (pyStrip s)

/-- One parsed CSV row.  Parsing artifacts are already applied: `date` is
the `pd.to_datetime(..., errors='coerce')` result (`none` = NaT), `mid`
the `pd.to_numeric(..., errors='coerce')` result (`none` = NaN); string
cells are `none` when the cell was empty (NaN). -/
structure Row where
  basis : Option String
  rtype : Option String
  callPut : Option String
  date : Option Date
  mid : Option ℚ
  contractMonth : Option String
deriving DecidableEq, Repr

/-- A parsed row-set: the (cleaned-up) header and the rows. -/
structure Frame where
  cols : List String
  rows : List Row
deriving DecidableEq, Repr

/-- Strip every header name, as `df.columns.str.strip()`. -/
def stripFrame (fr : Frame) : Frame := ⟨fr.cols.map pyStrip, fr.rows⟩

/-- Clean every header name, `.str.strip().str.replace('\u200b', '')`. -/
def cleanFrame (fr : Frame) : Frame := ⟨fr.cols.map cleanName, fr.rows⟩

instance {ε α : Type} [DecidableEq ε] [DecidableEq α] : DecidableEq (Except ε α) := fun a b =>
  match a, b with
  | .error x, .error y =>
    if h : x = y then isTrue (by subst h; rfl)
    else isFalse (fun hh => h (Except.error.inj hh))
  | .error _, .ok _ => isFalse (fun hh => Except.noConfusion hh)
  | .ok _, .error _ => isFalse (fun hh => Except.noConfusion hh)
  | .ok x, .ok y =>
    if h : x = y then isTrue (by subst h; rfl)
    else isFalse (fun hh => h (Except.ok.inj hh))

/-- A file on disk, abstracting `pd.read_csv`: its byte size and the parse
outcome under each encoding the pipeline ever tries. -/
structure CsvSource where
  size : Nat
  parseU8 : Except String Frame
  parseU8sig : Except String Frame
  parseU16 : Except String Frame
deriving DecidableEq, Repr

/-- A file discovered by `os.walk`/`os.listdir`: its name and contents. -/
structure SrcFile where
  name : String
  src : CsvSource
deriving DecidableEq, Repr

/-- `str(Basis).strip()` (`curve_filter.py:49`, `vol_extractor.py:29`). -/
def normBasis (r : Row) : String := pyStrip (pyStr r.basis)

/-- `str(Type).strip().upper()` (`curve_filter.py:50`, `vol_extractor.py:30`). -/
def normType (r : Row) : String := pyUpper (pyStrip (pyStr r.rtype))

/-- `str(Call/Put).strip().upper()` (`vol_extractor.py:31`). -/
def normCallPut (r : Row) : String := pyUpper (pyStrip (pyStr r.callPut))

/-- The year-month key a row is grouped under: the string pair
`(str(date.year), f"{date.month:02d}")` derived from its own date. -/
def ymKeyOf (r : Row) : Option (String × String) :=
  r.date.map (fun d => (toString d.year, monthStr d.month))

/-! ### The `file_dict` year-month dictionary

Both filter stages accumulate per-file groups in a Python dict keyed by
the `(year, month)` string pair.  The dict is modelled as an association
list in insertion order; `file_dict[key].append(group)` becomes
`dictAppend`, with the later `pd.concat(groups)` performed eagerly so an
entry holds the concatenation of its appended groups. -/

abbrev YMKey := String × String

abbrev YMDict := List (YMKey × List Row)

/-- All rows accumulated under key `k` (`[]` when the key is absent). -/
def dictGet (fd : YMDict) (k : YMKey) : List Row :=
  match fd.find? (fun p => decide (p.1 = k)) with
  | some p => p.2
  | none => []

/-- Replace the entry at key `k` by itself extended with `g`. -/
def dictUpd (fd : YMDict) (k : YMKey) (g : List Row) : YMDict :=
  fd.map (fun p => if p.1 = k then (p.1, p.2 ++ g) else p)

/-- `file_dict[k].append(g)`, creating the entry when absent. -/
def dictAppend (fd : YMDict) (k : YMKey) (g : List Row) : YMDict :=
  if fd.any (fun p => decide (p.1 = k)) then dictUpd fd k g
  else fd ++ [(k, g)]

/-- The dict's keys in insertion order. -/
def dictKeys (fd : YMDict) : List YMKey := fd.map Prod.fst

theorem dictGet_nil (k : YMKey) : dictGet [] k = [] := rfl

theorem dictGet_cons (p : YMKey × List Row) (fd : YMDict) (k : YMKey) :
    dictGet (p :: fd) k = if p.1 = k then p.2 else dictGet fd k := by
  by_cases h : p.1 = k
  · rw [dictGet, List.find?_cons_of_pos _ (by simpa using h)]
    simp [h]
  · rw [dictGet, List.find?_cons_of_neg _ (by simpa using h)]
    simp [h, dictGet]

theorem dictUpd_cons (p : YMKey × List Row) (fd : YMDict) (k g) :
    dictUpd (p :: fd) k g =
      (if p.1 = k then (p.1, p.2 ++ g) else p) :: dictUpd fd k g := rfl

theorem dictGet_append (fd gs : YMDict) (k : YMKey) :
    dictGet (fd ++ gs) k =
      if fd.any (fun p => decide (p.1 = k)) = true then dictGet fd k
      else dictGet gs k := by
  induction fd with
  | nil => simp
  | cons p fd ih =>
    rw [List.cons_append, dictGet_cons, dictGet_cons, List.any_cons]
    by_cases hp : p.1 = k
    · simp [hp]
    · have hdp : decide (p.1 = k) = false := by simpa using hp
      rw [if_neg hp, if_neg hp, hdp, Bool.false_or, ih]

theorem dictGet_dictUpd_ne (fd : YMDict) (k g k') (h : k' ≠ k) :
    dictGet (dictUpd fd k g) k' = dictGet fd k' := by
  induction fd with
  | nil => rfl
  | cons p fd ih =>
    rw [dictUpd_cons, dictGet_cons, dictGet_cons]
    have h1 : (if p.1 = k then (p.1, p.2 ++ g) else p).1 = p.1 := by
      split <;> rfl
    rw [h1]
    by_cases hp : p.1 = k'
    · have hpk : ¬ p.1 = k := by rw [hp]; exact fun hh => h hh
      simp [hp, hpk, h]
    · simp [hp, ih]

theorem dictGet_dictUpd_eq (fd : YMDict) (k g)
    (hmem : fd.any (fun p => decide (p.1 = k)) = true) :
    dictGet (dictUpd fd k g) k = dictGet fd k ++ g := by
  induction fd with
  | nil => simp at hmem
  | cons p fd ih =>
    rw [dictUpd_cons, dictGet_cons, dictGet_cons]
    have h1 : (if p.1 = k then (p.1, p.2 ++ g) else p).1 = p.1 := by
      split <;> rfl
    rw [h1]
    by_cases hp : p.1 = k
    · simp [hp]
    · simp only [List.any_cons, Bool.or_eq_true, decide_eq_true_eq] at hmem
      rcases hmem with hmem | hmem
      · exact absurd hmem hp
      · simp [hp, ih hmem]

theorem dictGet_absent (fd : YMDict) (k)
    (hmem : fd.any (fun p => decide (p.1 = k)) = false) :
    dictGet fd k = [] := by
  induction fd with
  | nil => rfl
  | cons p fd ih =>
    simp only [List.any_cons, Bool.or_eq_false_iff,
      decide_eq_false_iff_not] at hmem
    rw [dictGet_cons]
    simp only [hmem.1, if_false]
    exact ih (by simp [hmem.2])

theorem dictGet_dictAppend (fd : YMDict) (k g k') :
    dictGet (dictAppend fd k g) k' =
      if k' = k then dictGet fd k ++ g else dictGet fd k' := by
  unfold dictAppend
  by_cases hany : fd.any (fun p => decide (p.1 = k)) = true
  · simp only [hany, if_true]
    by_cases hk : k' = k
    · subst hk; simp [dictGet_dictUpd_eq fd k' g hany]
    · simp [dictGet_dictUpd_ne fd k g k' hk, hk]
  · have hany2 : fd.any (fun p => decide (p.1 = k)) = false := by
      cases h2 : fd.any (fun p => decide (p.1 = k)) with
      | false => rfl
      | true => exact absurd h2 hany
    simp only [hany2, Bool.false_eq_true, if_false]
    rw [dictGet_append]
    by_cases hk : k' = k
    · subst hk
      rw [if_neg (fun h => by rw [hany2] at h; exact Bool.false_ne_true h),
        dictGet_cons, dictGet_absent fd k' hany2]
      simp
    · by_cases hf : fd.any (fun p => decide (p.1 = k')) = true
      · rw [if_pos hf, if_neg hk]
      · have hf2 : fd.any (fun p => decide (p.1 = k')) = false := by
          cases h2 : fd.any (fun p => decide (p.1 = k')) with
          | false => rfl
          | true => exact absurd h2 hf
        rw [if_neg (fun h => by rw [hf2] at h; exact Bool.false_ne_true h),
          dictGet_cons, if_neg hk, dictGet_absent fd k' hf2, dictGet_nil]
        exact if_neg (fun hh => hk hh.symm)

/-- Folding a list of groups into the dict extends each key's rows by the
concatenation of the groups carrying that key. -/
theorem dictGet_foldl (gl : List (YMKey × List Row)) (fd : YMDict) (k : YMKey) :
    dictGet (gl.foldl (fun d p => dictAppend d p.1 p.2) fd) k =
      dictGet fd k ++
        ((gl.filter (fun p => decide (p.1 = k))).map Prod.snd).flatten := by
  induction gl generalizing fd with
  | nil => simp
  | cons p gl ih =>
    simp only [List.foldl_cons, ih (dictAppend fd p.1 p.2),
      dictGet_dictAppend]
    by_cases hp : p.1 = k
    · subst hp; simp [List.filter_cons, List.append_assoc]
    · have : ¬ k = p.1 := fun hh => hp hh.symm
      simp [List.filter_cons, hp, this]

/-- Every invariant on entry rows indexed by the entry key is preserved
by `dictAppend`. -/
theorem dictAppend_pred (P : YMKey → Row → Prop) (fd : YMDict) (k g)
    (hfd : ∀ p ∈ fd, ∀ r ∈ p.2, P p.1 r) (hg : ∀ r ∈ g, P k r) :
    ∀ p ∈ dictAppend fd k g, ∀ r ∈ p.2, P p.1 r := by
  intro p hp r hr
  unfold dictAppend at hp
  split at hp
  · simp only [dictUpd, List.mem_map] at hp
    obtain ⟨q, hq, hqe⟩ := hp
    by_cases h1 : q.1 = k
    · simp only [h1, if_true] at hqe
      subst hqe
      simp only [List.mem_append] at hr
      rcases hr with hr | hr
      · simpa [h1] using hfd q hq r hr
      · simpa [h1] using hg r hr
    · simp only [h1, if_false] at hqe
      subst hqe
      exact hfd q hq r hr
  · simp only [List.mem_append, List.mem_singleton] at hp
    rcases hp with hp | hp
    · exact hfd p hp r hr
    · subst hp; exact hg r hr

/-- `dictAppend` keeps every entry nonempty. -/
theorem dictAppend_nonnil (fd : YMDict) (k g)
    (hfd : ∀ p ∈ fd, p.2 ≠ []) (hg : g ≠ []) :
    ∀ p ∈ dictAppend fd k g, p.2 ≠ [] := by
  intro p hp
  unfold dictAppend at hp
  split at hp
  · simp only [dictUpd, List.mem_map] at hp
    obtain ⟨q, hq, hqe⟩ := hp
    by_cases h1 : q.1 = k
    · simp only [h1, if_true] at hqe
      subst hqe
      simp only [ne_eq, List.append_eq_nil]
      rintro ⟨-, hg2⟩
      exact hg hg2
    · simp only [h1, if_false] at hqe
      subst hqe
      exact hfd q hq
  · simp only [List.mem_append, List.mem_singleton] at hp
    rcases hp with hp | hp
    · exact hfd p hp
    · subst hp; exact hg

/-- `dictAppend` keeps the key list duplicate-free. -/
theorem dictAppend_keys_nodup (fd : YMDict) (k g)
    (h : (dictKeys fd).Nodup) : (dictKeys (dictAppend fd k g)).Nodup := by
  unfold dictAppend
  split
  · have : dictKeys (dictUpd fd k g) = dictKeys fd := by
      simp only [dictKeys, dictUpd, List.map_map]
      congr 1
      funext p
      by_cases h1 : p.1 = k <;> simp [h1]
    rw [this]; exact h
  · next hany =>
    have hnk : k ∉ dictKeys fd := by
      intro hmem
      simp only [dictKeys, List.mem_map] at hmem
      obtain ⟨p, hp, hpe⟩ := hmem
      exact hany (List.any_eq_true.mpr ⟨p, hp, by simp [hpe]⟩)
    have hkeys : dictKeys (fd ++ [(k, g)]) = dictKeys fd ++ [k] := by
      simp [dictKeys]
    rw [hkeys]
    refine List.nodup_append.mpr ⟨h, List.nodup_singleton k, ?_⟩
    intro a ha hb
    simp only [List.mem_singleton] at hb
    subst hb
    exact hnk ha

/-! ### `groupby(['year', 'month'])`

pandas `groupby` (default `sort=True`) yields groups in sorted key order,
each group keeping the frame's row order. -/

/-- The sorted duplicate-free year-month keys present in a row list. -/
def keysOfRows (rows : List Row) : List YMKey :=
  sortLeB keyLeB (rows.filterMap ymKeyOf).dedup

/-- `df.groupby(['year', 'month'])`: every key paired with its rows. -/
def groupbyYM (rows : List Row) : List (YMKey × List Row) :=
  (keysOfRows rows).map
    (fun k => (k, rows.filter (fun r => decide (ymKeyOf r = some k))))

theorem mem_keysOfRows {rows : List Row} {k : YMKey} :
    k ∈ keysOfRows rows ↔ ∃ r ∈ rows, ymKeyOf r = some k := by
  unfold keysOfRows
  rw [(sortLeB_perm keyLeB _).mem_iff, List.mem_dedup, List.mem_filterMap]

theorem keysOfRows_nodup (rows : List Row) : (keysOfRows rows).Nodup :=
  (sortLeB_perm keyLeB _).nodup_iff.mpr (List.nodup_dedup _)

theorem groupbyYM_key {rows : List Row} {p} (hp : p ∈ groupbyYM rows) :
    ∀ r ∈ p.2, ymKeyOf r = some p.1 := by
  simp only [groupbyYM, List.mem_map] at hp
  obtain ⟨k, -, rfl⟩ := hp
  intro r hr
  simpa using (List.mem_filter.mp hr).2

theorem groupbyYM_src {rows : List Row} {p} (hp : p ∈ groupbyYM rows) :
    ∀ r ∈ p.2, r ∈ rows := by
  simp only [groupbyYM, List.mem_map] at hp
  obtain ⟨k, -, rfl⟩ := hp
  intro r hr
  exact (List.mem_filter.mp hr).1

theorem groupbyYM_nonnil {rows : List Row} {p} (hp : p ∈ groupbyYM rows) :
    p.2 ≠ [] := by
  simp only [groupbyYM, List.mem_map] at hp
  obtain ⟨k, hk, rfl⟩ := hp
  obtain ⟨r, hr, he⟩ := mem_keysOfRows.mp hk
  intro hnil
  have hmem : r ∈ rows.filter (fun r => decide (ymKeyOf r = some k)) :=
    List.mem_filter.mpr ⟨hr, by simpa using he⟩
  have h2 : rows.filter (fun r => decide (ymKeyOf r = some k)) = [] := hnil
  rw [h2] at hmem
  exact (List.not_mem_nil r) hmem

theorem nodup_filter_key {l : List YMKey} (h : l.Nodup) (k : YMKey) :
    l.filter (fun x => decide (x = k)) = if k ∈ l then [k] else [] := by
  induction l with
  | nil => simp
  | cons a l ih =>
    rw [List.nodup_cons] at h
    by_cases ha : a = k
    · subst ha
      rw [List.filter_cons_of_pos (by simp)]
      have hnil : l.filter (fun x => decide (x = a)) = [] :=
        List.filter_eq_nil_iff.mpr (fun b hb => by
          simp only [decide_eq_true_eq]
          intro he; subst he; exact h.1 hb)
      simp [hnil]
    · rw [List.filter_cons_of_neg (by simpa using ha)]
      rw [ih h.2]
      by_cases hkl : k ∈ l
      · rw [if_pos hkl, if_pos (List.mem_cons_of_mem a hkl)]
      · rw [if_neg hkl, if_neg (fun hm => by
          rcases List.mem_cons.mp hm with he | he
          · exact ha he.symm
          · exact hkl he)]

/-- Selecting one key from the groups recovers exactly the rows filtered
by that key. -/
theorem groupbyYM_flatten (rows : List Row) (k : YMKey) :
    (((groupbyYM rows).filter (fun p => decide (p.1 = k))).map
        Prod.snd).flatten
      = rows.filter (fun r => decide (ymKeyOf r = some k)) := by
  unfold groupbyYM
  rw [List.filter_map]
  have hcomp :
      ((fun p : YMKey × List Row => decide (p.1 = k)) ∘
        (fun k2 => (k2, rows.filter (fun r => decide (ymKeyOf r = some k2)))))
      = fun x : YMKey => decide (x = k) := rfl
  rw [hcomp, nodup_filter_key (keysOfRows_nodup rows) k]
  by_cases hk : k ∈ keysOfRows rows
  · simp [hk]
  · rw [if_neg hk]
    have : rows.filter (fun r => decide (ymKeyOf r = some k)) = [] :=
      List.filter_eq_nil_iff.mpr (fun r hr => by
        simp only [decide_eq_true_eq]
        intro he
        exact hk (mem_keysOfRows.mpr ⟨r, hr, he⟩))
    simp [this]

/-- `if month and ym[1] != month: continue` applied to the groups. -/
def monthKeep (month : Option String) (k : YMKey) : Bool :=
  match month with
  | none => true
  | some m => decide (k.2 = m)

def postMonthFilter (month : Option String)
    (gl : List (YMKey × List Row)) : List (YMKey × List Row) :=
  gl.filter (fun p => monthKeep month p.1)

/-! ### `curve_filter.extract_curve_data` -/

/-- Parameters of `extract_curve_data` (the folders are implicit in the
file list handed over by `os.walk`). -/
structure ExtractCfg where
  year : String
  targetCurves : List String
  targetStrikes : List String
  month : Option String

/-- `curve_filter.py:26-38`: size guard, utf-8 `pd.read_csv`, emptiness
guard; all exceptions are caught and turn into a skip. -/
inductive ReadOutcome where
  | skipSmall
  | skipErr
  | skipEmpty
  | frame (fr : Frame)
deriving DecidableEq, Repr

def extractRead (f : SrcFile) : ReadOutcome :=
  if f.src.size < 10 then .skipSmall
  else
    match f.src.parseU8 with
    | .error _ => .skipErr
    | .ok fr => if fr.rows.isEmpty then .skipEmpty else .frame fr

def requiredColumns : List String := ["Basis", "Type", "Curve_Date"]

/-- `[col for col in required_columns if col not in df.columns]`. -/
def missingColumns (fr : Frame) : List String :=
  requiredColumns.filter (fun c => decide (c ∉ fr.cols))

/-- The row mask of `curve_filter.py:60-66` (curve membership, strike
membership, year equality, optional month equality), on rows whose
`Curve_Date` parsed; rows with unparseable dates were dropped before. -/
def passesExtract (cfg : ExtractCfg) (r : Row) : Bool :=
  match r.date with
  | none => false
  | some d =>
    ((cfg.targetCurves.map pyUpper).contains (pyUpper (normBasis r)))
    && ((cfg.targetStrikes.map pyUpper).contains (normType r))
    && decide (toString d.year = cfg.year)
    && (match cfg.month with
        | none => true
        | some m => decide (monthStr d.month = m))

/-- The per-file outcome of the loop body `curve_filter.py:21-76`. -/
inductive ExtractFileRes where
  | skipNotCsv
  | skipSmall
  | skipErr
  | skipEmpty
  | skipMissing (missing : List String)
  | groups (gl : List (YMKey × List Row))
deriving DecidableEq, Repr

def extractFileRes (cfg : ExtractCfg) (f : SrcFile) : ExtractFileRes :=
  if ¬ endsWithB f.name ".csv" then .skipNotCsv
  else
    match extractRead f with
    | .skipSmall => .skipSmall
    | .skipErr => .skipErr
    | .skipEmpty => .skipEmpty
    | .frame fr0 =>
      let fr := stripFrame fr0
      if missingColumns fr ≠ [] then .skipMissing (missingColumns fr)
      else .groups (postMonthFilter cfg.month
        (groupbyYM (fr.rows.filter (passesExtract cfg))))

/-- Rows of a file surviving the mask (`[]` when the file is skipped). -/
def extractKept (cfg : ExtractCfg) (f : SrcFile) : List Row :=
  if ¬ endsWithB f.name ".csv" then []
  else
    match extractRead f with
    | .frame fr0 =>
      let fr := stripFrame fr0
      if missingColumns fr ≠ [] then []
      else fr.rows.filter (passesExtract cfg)
    | _ => []

def extractStep (cfg : ExtractCfg) (fd : YMDict) (f : SrcFile) : YMDict :=
  match extractFileRes cfg f with
  | .groups gl => gl.foldl (fun d p => dictAppend d p.1 p.2) fd
  | _ => fd

def extractDictAux (cfg : ExtractCfg) (fd : YMDict) :
    List SrcFile → YMDict
  | [] => fd
  | f :: fs => extractDictAux cfg (extractStep cfg fd f) fs

/-- The `file_dict` accumulated by `extract_curve_data` over the walk. -/
def extractDict (cfg : ExtractCfg) (files : List SrcFile) : YMDict :=
  extractDictAux cfg [] files

theorem passesExtract_month {cfg : ExtractCfg} {r : Row} {k : YMKey}
    (hp : passesExtract cfg r = true) (hk : ymKeyOf r = some k) :
    monthKeep cfg.month k = true := by
  unfold passesExtract at hp
  unfold ymKeyOf at hk
  cases hd : r.date with
  | none => rw [hd] at hp; exact absurd hp Bool.false_ne_true
  | some d =>
    rw [hd] at hp hk
    have hk2 : (toString d.year, monthStr d.month) = k := Option.some.inj hk
    subst hk2
    cases hm : cfg.month with
    | none => rfl
    | some m =>
      rw [hm] at hp
      simp only [Bool.and_eq_true, decide_eq_true_eq] at hp
      simpa [monthKeep] using hp.2

theorem passesExtract_year {cfg : ExtractCfg} {r : Row} {k : YMKey}
    (hp : passesExtract cfg r = true) (hk : ymKeyOf r = some k) :
    k.1 = cfg.year := by
  unfold passesExtract at hp
  unfold ymKeyOf at hk
  cases hd : r.date with
  | none => rw [hd] at hp; exact absurd hp Bool.false_ne_true
  | some d =>
    rw [hd] at hp hk
    have hk2 : (toString d.year, monthStr d.month) = k := Option.some.inj hk
    subst hk2
    cases hm : cfg.month with
    | none =>
      rw [hm] at hp
      simp only [Bool.and_eq_true, decide_eq_true_eq] at hp
      exact hp.1.2
    | some m =>
      rw [hm] at hp
      simp only [Bool.and_eq_true, decide_eq_true_eq] at hp
      exact hp.1.2

/-- The redundant month re-check on the groups never removes anything:
the mask already pinned the month. -/
theorem postMonthFilter_extract (cfg : ExtractCfg) (rows : List Row) :
    postMonthFilter cfg.month
        (groupbyYM (rows.filter (passesExtract cfg)))
      = groupbyYM (rows.filter (passesExtract cfg)) := by
  apply List.filter_eq_self.mpr
  intro p hp
  have hne := groupbyYM_nonnil hp
  cases h2 : p.2 with
  | nil => exact absurd h2 hne
  | cons r rs =>
    have hr : r ∈ p.2 := by rw [h2]; exact List.mem_cons_self r rs
    have hkey := groupbyYM_key hp r hr
    have hsrc := groupbyYM_src hp r hr
    exact passesExtract_month (List.mem_filter.mp hsrc).2 hkey

theorem dictGet_extractStep (cfg : ExtractCfg) (fd : YMDict) (f : SrcFile)
    (k : YMKey) :
    dictGet (extractStep cfg fd f) k =
      dictGet fd k ++
        (extractKept cfg f).filter (fun r => decide (ymKeyOf r = some k)) := by
  unfold extractStep extractFileRes extractKept
  by_cases hcsv : endsWithB f.name ".csv"
  · simp only [hcsv, not_true, if_false, if_neg]
    cases hread : extractRead f with
    | skipSmall => simp
    | skipErr => simp
    | skipEmpty => simp
    | frame fr0 =>
      by_cases hmiss : missingColumns (stripFrame fr0) ≠ []
      · simp [hmiss]
      · simp only [hmiss, if_false, if_neg]
        rw [dictGet_foldl, postMonthFilter_extract, groupbyYM_flatten]
  · simp [hcsv]

theorem dictGet_extractDictAux (cfg : ExtractCfg) (files : List SrcFile) :
    ∀ (fd : YMDict) (k : YMKey),
      dictGet (extractDictAux cfg fd files) k =
        dictGet fd k ++
          ((files.map (extractKept cfg)).flatten.filter
            (fun r => decide (ymKeyOf r = some k))) := by
  induction files with
  | nil => intro fd k; simp [extractDictAux]
  | cons f fs ih =>
    intro fd k
    show dictGet (extractDictAux cfg (extractStep cfg fd f) fs) k = _
    rw [ih (extractStep cfg fd f) k, dictGet_extractStep]
    simp [List.filter_append, List.append_assoc]

/-- The content of each year-month bucket built by `extract_curve_data`:
exactly the retained rows (over all files, in discovery order) whose own
`Curve_Date` yields that key. -/
theorem dictGet_extractDict (cfg : ExtractCfg) (files : List SrcFile)
    (k : YMKey) :
    dictGet (extractDict cfg files) k =
      ((files.map (extractKept cfg)).flatten.filter
        (fun r => decide (ymKeyOf r = some k))) := by
  unfold extractDict
  rw [dictGet_extractDictAux]
  rfl

/-! ### Monthly artifacts and the yearly combined file
(`curve_filter.py:80-96`) -/

/-- `out_path = f"{month_key}.csv"` with `month_key = f"{ym[0]}-{ym[1]}"`. -/
def extractMonthlyName (k : YMKey) : String :=
  k.1 ++ "-" ++ k.2 ++ ".csv"

/-- The monthly artifacts written from `file_dict`, in insertion order;
each holds the concatenation of its groups (`pd.concat`). -/
def extractArtifacts (cfg : ExtractCfg) (files : List SrcFile) :
    List (String × List Row) :=
  (extractDict cfg files).map (fun p => (extractMonthlyName p.1, p.2))

/-- `re.match(r'\d{4}-\d{2}\.csv', f)` — anchored at the start only. -/
def matchesMonthly (s : String) : Bool :=
  match s.data with
  | c1 :: c2 :: c3 :: c4 :: x :: m1 :: m2 :: d :: cc :: cs :: cv :: _ =>
    c1.isDigit && c2.isDigit && c3.isDigit && c4.isDigit
      && decide (x = '-') && m1.isDigit && m2.isDigit
      && decide (d = '.') && decide (cc = 'c') && decide (cs = 's')
      && decide (cv = 'v')
  | _ => false

/-- `curve_filter.py:87-95`: list the output folder sorted by name, keep
names ending in `.csv` that match the monthly pattern, and concatenate
their contents.  The output folder is modelled as fresh for the run, so
its listing is exactly the monthly artifacts, and re-reading a written
artifact returns its rows. -/
def extractCombined (cfg : ExtractCfg) (files : List SrcFile) : List Row :=
  (((sortLeB (fun a b => strLeB a.1 b.1)
      (extractArtifacts cfg files)).filter
    (fun p => endsWithB p.1 ".csv" && matchesMonthly p.1)).map
      Prod.snd).flatten

/-- A 4-digit year string, as the `year` parameter is documented to be. -/
def FourDigitStr (s : String) : Prop :=
  s.data.length = 4 ∧ ∀ c ∈ s.data, c.isDigit

instance (s : String) : Decidable (FourDigitStr s) := by
  unfold FourDigitStr; infer_instance

theorem monthStr_two {m : Nat} (h1 : 1 ≤ m) (h2 : m ≤ 12) :
    (monthStr m).data.length = 2 ∧ ∀ c ∈ (monthStr m).data, c.isDigit = true := by
  interval_cases m <;> decide

theorem endsWithB_append (a suf : String) :
    endsWithB (a ++ suf) suf = true := by
  unfold endsWithB
  rw [String.data_append]
  have harith : (a.data ++ suf.data).length - suf.data.length
      = a.data.length := by
    rw [List.length_append]; omega
  rw [harith, List.drop_left]
  exact decide_eq_true rfl

theorem matchesMonthly_name {y mm : String} (hy : FourDigitStr y)
    (hlen : mm.data.length = 2) (hdig : ∀ c ∈ mm.data, c.isDigit = true) :
    matchesMonthly (y ++ "-" ++ mm ++ ".csv") = true := by
  obtain ⟨hylen, hydig⟩ := hy
  obtain ⟨c1, c2, c3, c4, hyd⟩ : ∃ a b c d, y.data = [a, b, c, d] := by
    rcases h9 : y.data with _ | ⟨a, t⟩
    · rw [h9] at hylen; simp at hylen
    · rw [h9, List.length_cons] at hylen
      obtain ⟨b, c, d, rfl⟩ :=
        List.length_eq_three.mp (by omega : t.length = 3)
      exact ⟨a, b, c, d, rfl⟩
  obtain ⟨m1, m2, hmd⟩ : ∃ a b, mm.data = [a, b] :=
    List.length_eq_two.mp hlen
  have hdata : (y ++ "-" ++ mm ++ ".csv").data
      = c1 :: c2 :: c3 :: c4 :: '-' :: m1 :: m2
          :: '.' :: 'c' :: 's' :: 'v' :: [] := by
    rw [String.data_append, String.data_append, String.data_append,
      hyd, hmd]
    rfl
  have d1 := hydig c1 (by rw [hyd]; exact List.mem_cons_self _ _)
  have d2 := hydig c2 (by rw [hyd]; simp)
  have d3 := hydig c3 (by rw [hyd]; simp)
  have d4 := hydig c4 (by rw [hyd]; simp)
  have d5 := hdig m1 (by rw [hmd]; exact List.mem_cons_self _ _)
  have d6 := hdig m2 (by rw [hmd]; simp)
  unfold matchesMonthly
  rw [hdata]
  simp [d1, d2, d3, d4, d5, d6]

/-- Distinct year-month keys (with calendar month components) get
distinct monthly file names in `extract_curve_data`. -/
theorem extractMonthlyName_inj {k1 k2 : YMKey}
    (h1 : k1.2.data.length = 2) (h2 : k2.2.data.length = 2)
    (hne : k1 ≠ k2) : extractMonthlyName k1 ≠ extractMonthlyName k2 := by
  intro he
  apply hne
  have hd := congrArg String.data he
  unfold extractMonthlyName at hd
  simp only [String.data_append, List.append_assoc] at hd
  have hsuf : ("-".data ++ (k1.2.data ++ ".csv".data)).length
      = ("-".data ++ (k2.2.data ++ ".csv".data)).length := by
    simp only [List.length_append, h1, h2]
  obtain ⟨hy, hrest⟩ := List.append_inj' hd (by simpa using hsuf)
  have hmm : k1.2.data ++ ".csv".data = k2.2.data ++ ".csv".data := by
    simpa using hrest
  have hmm2 : k1.2.data = k2.2.data := (List.append_inj' hmm rfl).1
  exact Prod.ext (String.ext hy) (String.ext hmm2)

/-- The row's parsed date, when present, is a calendar date.  (True of
everything `pd.to_datetime` produces.) -/
def RowDateValid (r : Row) : Prop :=
  match r.date with
  | some d => d.ValidMonth
  | none => True

instance (r : Row) : Decidable (RowDateValid r) := by
  unfold RowDateValid
  rcases r.date with _ | d <;> infer_instance

theorem rowDateValid_some {r : Row} {d : Date} (h : RowDateValid r)
    (hd : r.date = some d) : d.ValidMonth := by
  unfold RowDateValid at h
  rw [hd] at h
  exact h

/-- Every row a dict entry of `extract_curve_data` holds: keyed by its
own date, passed the mask, and carries a calendar date. -/
def EntryRowOK (cfg : ExtractCfg) (k : YMKey) (r : Row) : Prop :=
  ymKeyOf r = some k ∧ passesExtract cfg r = true ∧ RowDateValid r

/-- All rows parsed out of the file carry calendar dates — true of real
CSV data, stated as a hypothesis on the abstract parse outcome. -/
def ExtractSrcValid (f : SrcFile) : Prop :=
  match extractRead f with
  | .frame fr => ∀ r ∈ fr.rows, RowDateValid r
  | _ => True

instance (f : SrcFile) : Decidable (ExtractSrcValid f) := by
  unfold ExtractSrcValid
  rcases extractRead f with _ | _ | _ | fr <;> infer_instance

theorem foldl_dictAppend_inv (P : YMKey → Row → Prop)
    (gl : List (YMKey × List Row)) :
    ∀ fd, (∀ p ∈ fd, p.2 ≠ [] ∧ ∀ r ∈ p.2, P p.1 r) →
      (∀ q ∈ gl, q.2 ≠ [] ∧ ∀ r ∈ q.2, P q.1 r) →
      ∀ p ∈ gl.foldl (fun d q => dictAppend d q.1 q.2) fd,
        p.2 ≠ [] ∧ ∀ r ∈ p.2, P p.1 r := by
  induction gl with
  | nil => intro fd hfd _ p hp; exact hfd p hp
  | cons q gl ih =>
    intro fd hfd hgl p hp
    rw [List.foldl_cons] at hp
    refine ih (dictAppend fd q.1 q.2) ?_ ?_ p hp
    · intro p2 hp2
      refine ⟨?_, ?_⟩
      · exact dictAppend_nonnil fd q.1 q.2 (fun p3 hp3 => (hfd p3 hp3).1)
          (hgl q (List.mem_cons_self q gl)).1 p2 hp2
      · exact fun r hr => dictAppend_pred P fd q.1 q.2
          (fun p3 hp3 => (hfd p3 hp3).2)
          (hgl q (List.mem_cons_self q gl)).2 p2 hp2 r hr
    · exact fun q2 hq2 => hgl q2 (List.mem_cons_of_mem q hq2)

theorem extractGroups_inv {cfg : ExtractCfg} {f : SrcFile}
    {gl : List (YMKey × List Row)} (hv : ExtractSrcValid f)
    (hres : extractFileRes cfg f = .groups gl) :
    ∀ q ∈ gl, q.2 ≠ [] ∧ ∀ r ∈ q.2, EntryRowOK cfg q.1 r := by
  unfold extractFileRes at hres
  by_cases hcsv : endsWithB f.name ".csv"
  · rw [if_neg (by simpa using hcsv)] at hres
    unfold ExtractSrcValid at hv
    cases hread : extractRead f with
    | skipSmall => rw [hread] at hres; cases hres
    | skipErr => rw [hread] at hres; cases hres
    | skipEmpty => rw [hread] at hres; cases hres
    | frame fr0 =>
      rw [hread] at hres hv
      dsimp only at hres hv
      by_cases hmiss : missingColumns (stripFrame fr0) ≠ []
      · rw [if_pos hmiss] at hres; cases hres
      · rw [if_neg hmiss] at hres
        have hgl : gl = postMonthFilter cfg.month
            (groupbyYM ((stripFrame fr0).rows.filter
              (passesExtract cfg))) :=
          (ExtractFileRes.groups.inj hres).symm
        subst hgl
        intro q hq
        have hq2 : q ∈ groupbyYM ((stripFrame fr0).rows.filter
            (passesExtract cfg)) := (List.mem_filter.mp hq).1
        refine ⟨groupbyYM_nonnil hq2, ?_⟩
        intro r hr
        have hsrc := groupbyYM_src hq2 r hr
        have hmemfil := List.mem_filter.mp hsrc
        exact ⟨groupbyYM_key hq2 r hr, hmemfil.2, hv r hmemfil.1⟩
  · rw [if_pos (by simpa using hcsv)] at hres
    cases hres

theorem extractDictAux_inv (cfg : ExtractCfg) (files : List SrcFile)
    (hv : ∀ f ∈ files, ExtractSrcValid f) :
    ∀ fd, (∀ p ∈ fd, p.2 ≠ [] ∧ ∀ r ∈ p.2, EntryRowOK cfg p.1 r) →
      ∀ p ∈ extractDictAux cfg fd files,
        p.2 ≠ [] ∧ ∀ r ∈ p.2, EntryRowOK cfg p.1 r := by
  induction files with
  | nil => intro fd hfd p hp; exact hfd p hp
  | cons f fs ih =>
    intro fd hfd p hp
    have hvf := hv f (List.mem_cons_self f fs)
    have hvs : ∀ g ∈ fs, ExtractSrcValid g :=
      fun g hg => hv g (List.mem_cons_of_mem f hg)
    show p.2 ≠ [] ∧ ∀ r ∈ p.2, EntryRowOK cfg p.1 r
    have hp2 : p ∈ extractDictAux cfg (extractStep cfg fd f) fs := hp
    refine ih hvs (extractStep cfg fd f) ?_ p hp2
    unfold extractStep
    cases hres : extractFileRes cfg f with
    | groups gl =>
      exact foldl_dictAppend_inv _ gl fd hfd (extractGroups_inv hvf hres)
    | skipNotCsv => exact hfd
    | skipSmall => exact hfd
    | skipErr => exact hfd
    | skipEmpty => exact hfd
    | skipMissing m => exact hfd

theorem extractDict_inv (cfg : ExtractCfg) (files : List SrcFile)
    (hv : ∀ f ∈ files, ExtractSrcValid f) :
    ∀ p ∈ extractDict cfg files,
      p.2 ≠ [] ∧ ∀ r ∈ p.2, EntryRowOK cfg p.1 r :=
  extractDictAux_inv cfg files hv [] (by intro p hp; cases hp)

/-- Every key of the accumulated dict is the run's year paired with a
2-digit calendar month. -/
theorem extractDict_key_shape (cfg : ExtractCfg) (files : List SrcFile)
    (hv : ∀ f ∈ files, ExtractSrcValid f) :
    ∀ p ∈ extractDict cfg files, p.1.1 = cfg.year ∧
      ∃ m, 1 ≤ m ∧ m ≤ 12 ∧ p.1.2 = monthStr m := by
  intro p hp
  obtain ⟨hne, hrows⟩ := extractDict_inv cfg files hv p hp
  cases h2 : p.2 with
  | nil => exact absurd h2 hne
  | cons r rs =>
    have hr : r ∈ p.2 := by rw [h2]; exact List.mem_cons_self r rs
    obtain ⟨hkey, hpass, hval⟩ := hrows r hr
    have hyear := passesExtract_year hpass hkey
    unfold ymKeyOf at hkey
    cases hd : r.date with
    | none => rw [hd] at hkey; cases hkey
    | some d =>
      rw [hd] at hkey
      have hk2 : (toString d.year, monthStr d.month) = p.1 :=
        Option.some.inj hkey
      obtain ⟨hm1, hm2⟩ := rowDateValid_some hval hd
      refine ⟨hyear, d.month, hm1, hm2, ?_⟩
      rw [← hk2]

theorem foldl_dictAppend_nodup (gl : List (YMKey × List Row)) :
    ∀ fd, (dictKeys fd).Nodup →
      (dictKeys (gl.foldl (fun d q => dictAppend d q.1 q.2) fd)).Nodup := by
  induction gl with
  | nil => intro fd h; exact h
  | cons q gl ih =>
    intro fd h
    rw [List.foldl_cons]
    exact ih (dictAppend fd q.1 q.2) (dictAppend_keys_nodup fd q.1 q.2 h)

theorem extractDict_keys_nodup (cfg : ExtractCfg) (files : List SrcFile) :
    (dictKeys (extractDict cfg files)).Nodup := by
  suffices h : ∀ fd, (dictKeys fd).Nodup →
      (dictKeys (extractDictAux cfg fd files)).Nodup by
    exact h [] List.nodup_nil
  induction files with
  | nil => intro fd h; exact h
  | cons f fs ih =>
    intro fd h
    show (dictKeys (extractDictAux cfg (extractStep cfg fd f) fs)).Nodup
    refine ih (extractStep cfg fd f) ?_
    unfold extractStep
    cases extractFileRes cfg f with
    | groups gl => exact foldl_dictAppend_nodup gl fd h
    | skipNotCsv => exact h
    | skipSmall => exact h
    | skipErr => exact h
    | skipEmpty => exact h
    | skipMissing m => exact h

/-- With a 4-digit year parameter and calendar dates, the combined pass
selects every monthly artifact, so the combined file holds a
permutation of the concatenated monthly artifacts. -/
theorem extractCombined_perm (cfg : ExtractCfg) (files : List SrcFile)
    (hv : ∀ f ∈ files, ExtractSrcValid f) (hy : FourDigitStr cfg.year) :
    List.Perm (extractCombined cfg files)
      (((extractArtifacts cfg files).map Prod.snd).flatten) := by
  unfold extractCombined
  have hall : ∀ p ∈ sortLeB (fun a b => strLeB a.1 b.1)
      (extractArtifacts cfg files),
      (endsWithB p.1 ".csv" && matchesMonthly p.1) = true := by
    intro p hp
    have hp2 : p ∈ extractArtifacts cfg files :=
      ((sortLeB_perm _ _).mem_iff).mp hp
    unfold extractArtifacts at hp2
    obtain ⟨q, hq, rfl⟩ := List.mem_map.mp hp2
    obtain ⟨hyear, m, hm1, hm2, hmeq⟩ :=
      extractDict_key_shape cfg files hv q hq
    have hname : extractMonthlyName q.1
        = cfg.year ++ "-" ++ monthStr m ++ ".csv" := by
      unfold extractMonthlyName
      rw [hyear, hmeq]
    rw [Bool.and_eq_true]
    constructor
    · show endsWithB (extractMonthlyName q.1) ".csv" = true
      rw [hname]
      exact endsWithB_append (cfg.year ++ "-" ++ monthStr m) ".csv"
    · show matchesMonthly (extractMonthlyName q.1) = true
      rw [hname]
      exact matchesMonthly_name hy (monthStr_two hm1 hm2).1
        (monthStr_two hm1 hm2).2
  rw [List.filter_eq_self.mpr hall]
  exact ((sortLeB_perm _ _).map Prod.snd).flatten

/-! ### `vol_extractor.robust_read_csv` and `filter_vol_data` -/

/-- `vol_extractor.py:5-13`: try `utf-8-sig`, then `utf-16`; `None` only
when both parses raise.  (No size or emptiness check.) -/
def robust_read_csv_ve (src : CsvSource) : Option Frame :=
  match src.parseU8sig with
  | .ok df => some df
  | .error _ =>
    match src.parseU16 with
    | .ok df => some df
    | .error _ => none

/-- Parameters of `filter_vol_data` (the unused `suffix` is omitted). -/
structure VolCfg where
  year : String
  basisFilter : List String
  typeFilter : Option String
  callputFilter : Option String
  month : Option String
  startDate : Option Date
  endDate : Option Date

/-- The mask of `vol_extractor.py:40-52`: basis membership, optional
type and call/put equality, date range (when both bounds are given)
otherwise year equality, optional month equality. -/
def passesVol (cfg : VolCfg) (r : Row) : Bool :=
  match r.date with
  | none => false
  | some d =>
    ((cfg.basisFilter.map pyUpper).contains (pyUpper (normBasis r)))
    && (match cfg.typeFilter with
        | none => true
        | some tf => decide (normType r = pyUpper tf))
    && (match cfg.callputFilter with
        | none => true
        | some cf => decide (normCallPut r = pyUpper cf))
    && (match cfg.startDate, cfg.endDate with
        | some sd, some ed => dateLeB sd d && dateLeB d ed
        | _, _ => decide (toString d.year = cfg.year))
    && (match cfg.month with
        | none => true
        | some m => decide (monthStr d.month = m))

/-- `vol_extractor.py:28-62` on one parsed frame.  `df['Basis']` and
`df['Type']` are accessed before any column check, so a missing column
raises an uncaught `KeyError`; `df.get('Call/Put', '').astype(str)`
raises `AttributeError` when the column is absent (the default is a
plain `str`); a missing `Curve_Date` is skipped silently (no log). -/
def volFrameGroups (cfg : VolCfg) (fr : Frame) :
    Except String (List (YMKey × List Row)) :=
  if "Basis" ∉ fr.cols then .error "KeyError: Basis"
  else if "Type" ∉ fr.cols then .error "KeyError: Type"
  else if "Call/Put" ∉ fr.cols then
    .error "AttributeError: str has no attribute astype"
  else if "Curve_Date" ∉ fr.cols then .ok []
  else .ok (postMonthFilter cfg.month
    (groupbyYM (fr.rows.filter (passesVol cfg))))

inductive VolFileRes where
  | skipNotCsv
  | skipRead
  | groups (gl : List (YMKey × List Row))
  | err (e : String)
deriving DecidableEq, Repr

/-- The per-file outcome of the loop body `vol_extractor.py:20-62`. -/
def volFileRes (cfg : VolCfg) (f : SrcFile) : VolFileRes :=
  if ¬ endsWithB f.name ".csv" then .skipNotCsv
  else
    match robust_read_csv_ve f.src with
    | none => .skipRead
    | some fr0 =>
      match volFrameGroups cfg (cleanFrame fr0) with
      | .error e => .err e
      | .ok gl => .groups gl

/-- The walk of `filter_vol_data`: dict accumulation, with the first
uncaught exception aborting the stage. -/
def volDictAux (cfg : VolCfg) (fd : YMDict) :
    List SrcFile → Except String YMDict
  | [] => .ok fd
  | f :: fs =>
    match volFileRes cfg f with
    | .skipNotCsv => volDictAux cfg fd fs
    | .skipRead => volDictAux cfg fd fs
    | .groups gl =>
      volDictAux cfg (gl.foldl (fun d q => dictAppend d q.1 q.2) fd) fs
    | .err e => .error e

def volDict (cfg : VolCfg) (files : List SrcFile) : Except String YMDict :=
  volDictAux cfg [] files

/-- Rows of a file surviving the mask (`[]` when the file contributes
nothing). -/
def volKept (cfg : VolCfg) (f : SrcFile) : List Row :=
  if ¬ endsWithB f.name ".csv" then []
  else
    match robust_read_csv_ve f.src with
    | none => []
    | some fr0 =>
      let fr := cleanFrame fr0
      if "Basis" ∉ fr.cols ∨ "Type" ∉ fr.cols ∨ "Call/Put" ∉ fr.cols
          ∨ "Curve_Date" ∉ fr.cols then []
      else fr.rows.filter (passesVol cfg)

theorem passesVol_month {cfg : VolCfg} {r : Row} {k : YMKey}
    (hp : passesVol cfg r = true) (hk : ymKeyOf r = some k) :
    monthKeep cfg.month k = true := by
  unfold passesVol at hp
  unfold ymKeyOf at hk
  cases hd : r.date with
  | none => rw [hd] at hp; exact absurd hp Bool.false_ne_true
  | some d =>
    rw [hd] at hp hk
    have hk2 : (toString d.year, monthStr d.month) = k := Option.some.inj hk
    subst hk2
    cases hm : cfg.month with
    | none => rfl
    | some m =>
      rw [hm] at hp
      simp only [Bool.and_eq_true, decide_eq_true_eq] at hp
      simpa [monthKeep] using hp.2

/-- The generic form of the redundant month re-check being a no-op. -/
theorem postMonthFilter_noop (month : Option String) (pb : Row → Bool)
    (rows : List Row)
    (hmonth : ∀ r k, pb r = true → ymKeyOf r = some k →
      monthKeep month k = true) :
    postMonthFilter month (groupbyYM (rows.filter pb))
      = groupbyYM (rows.filter pb) := by
  apply List.filter_eq_self.mpr
  intro p hp
  have hne := groupbyYM_nonnil hp
  cases h2 : p.2 with
  | nil => exact absurd h2 hne
  | cons r rs =>
    have hr : r ∈ p.2 := by rw [h2]; exact List.mem_cons_self r rs
    have hkey := groupbyYM_key hp r hr
    have hsrc := groupbyYM_src hp r hr
    exact hmonth r p.1 (List.mem_filter.mp hsrc).2 hkey

theorem volFrameGroups_ok {cfg : VolCfg} {fr : Frame}
    {gl : List (YMKey × List Row)}
    (h : volFrameGroups cfg fr = .ok gl) :
    ("Basis" ∈ fr.cols ∧ "Type" ∈ fr.cols ∧ "Call/Put" ∈ fr.cols) ∧
      (("Curve_Date" ∉ fr.cols ∧ gl = []) ∨
        ("Curve_Date" ∈ fr.cols ∧
          gl = postMonthFilter cfg.month
            (groupbyYM (fr.rows.filter (passesVol cfg))))) := by
  unfold volFrameGroups at h
  by_cases hb : "Basis" ∉ fr.cols
  · rw [if_pos hb] at h; cases h
  · rw [if_neg hb] at h
    by_cases ht : "Type" ∉ fr.cols
    · rw [if_pos ht] at h; cases h
    · rw [if_neg ht] at h
      by_cases hc : "Call/Put" ∉ fr.cols
      · rw [if_pos hc] at h; cases h
      · rw [if_neg hc] at h
        refine ⟨⟨not_not.mp hb, not_not.mp ht, not_not.mp hc⟩, ?_⟩
        by_cases hd : "Curve_Date" ∉ fr.cols
        · rw [if_pos hd] at h
          exact Or.inl ⟨hd, (Except.ok.inj h).symm⟩
        · rw [if_neg hd] at h
          exact Or.inr ⟨not_not.mp hd, (Except.ok.inj h).symm⟩

/-- Bridge between the per-file result and the kept rows. -/
theorem volKept_spec (cfg : VolCfg) (f : SrcFile) :
    match volFileRes cfg f with
    | .groups gl => ∀ k,
        ((gl.filter (fun p => decide (p.1 = k))).map Prod.snd).flatten
          = (volKept cfg f).filter (fun r => decide (ymKeyOf r = some k))
    | .err _ => True
    | _ => volKept cfg f = [] := by
  unfold volFileRes volKept
  by_cases hcsv : endsWithB f.name ".csv"
  · rw [if_neg (by simpa using hcsv), if_neg (by simpa using hcsv)]
    cases hread : robust_read_csv_ve f.src with
    | none => exact rfl
    | some fr0 =>
      dsimp only
      cases hg : volFrameGroups cfg (cleanFrame fr0) with
      | error e => exact trivial
      | ok gl =>
        dsimp only
        obtain ⟨⟨hb, ht, hc⟩, hrest⟩ := volFrameGroups_ok hg
        rcases hrest with ⟨hd, rfl⟩ | ⟨hd, rfl⟩
        · rw [if_pos (by tauto)]
          intro k
          simp
        · rw [if_neg (by tauto)]
          intro k
          rw [postMonthFilter_noop cfg.month (passesVol cfg) _
            (fun r k2 hp hk => passesVol_month hp hk)]
          exact groupbyYM_flatten _ k
  · rw [if_pos (by simpa using hcsv), if_pos (by simpa using hcsv)]

/-- The content of each year-month bucket of `filter_vol_data`, on runs
that finish without an uncaught exception. -/
theorem dictGet_volDictAux (cfg : VolCfg) (files : List SrcFile) :
    ∀ fd fd2, volDictAux cfg fd files = .ok fd2 →
      ∀ k, dictGet fd2 k =
        dictGet fd k ++ ((files.map (volKept cfg)).flatten.filter
          (fun r => decide (ymKeyOf r = some k))) := by
  induction files with
  | nil =>
    intro fd fd2 h k
    have he : fd = fd2 := Except.ok.inj h
    subst he
    simp
  | cons f fs ih =>
    intro fd fd2 h k
    unfold volDictAux at h
    have hspec := volKept_spec cfg f
    cases hres : volFileRes cfg f with
    | skipNotCsv =>
      rw [hres] at h hspec
      dsimp only at h hspec
      rw [ih fd fd2 h k]
      simp [hspec]
    | skipRead =>
      rw [hres] at h hspec
      dsimp only at h hspec
      rw [ih fd fd2 h k]
      simp [hspec]
    | err e =>
      rw [hres] at h
      dsimp only at h
      cases h
    | groups gl =>
      rw [hres] at h hspec
      dsimp only at h hspec
      rw [ih _ fd2 h k, dictGet_foldl, hspec k]
      simp [List.filter_append, List.append_assoc]

/-- `curve_name = basis_filter[0] if basis_filter else "UNKNOWN"`
(`vol_extractor.py:68`). -/
def volCurveName (cfg : VolCfg) : String :=
  match cfg.basisFilter with
  | c :: _ => c
  | [] => "UNKNOWN"

/-- `f"{curve_name}_{month_num}_ewma_hist.csv"` where `month_num` is
`month_key.split('-')[1]`: year strings are decimal digits, so the first
hyphen ends the year and the split recovers the month component. -/
def volMonthlyName (cfg : VolCfg) (k : YMKey) : String :=
  volCurveName cfg ++ "_" ++ k.2 ++ "_ewma_hist.csv"

/-- The monthly writes of `filter_vol_data` in dict order. -/
def volArtifacts (cfg : VolCfg) (fd : YMDict) : List (String × List Row) :=
  fd.map (fun p => (volMonthlyName cfg p.1, p.2))

/-- One `to_csv` call: a later write to the same path replaces the
earlier file. -/
def fsWrite (fs : List (String × List Row)) (nm : String)
    (rows : List Row) : List (String × List Row) :=
  if fs.any (fun p => decide (p.1 = nm)) then
    fs.map (fun p => if p.1 = nm then (nm, rows) else p)
  else fs ++ [(nm, rows)]

/-- The (fresh) output folder after all monthly writes of
`filter_vol_data`. -/
def volFS (cfg : VolCfg) (fd : YMDict) : List (String × List Row) :=
  (volArtifacts cfg fd).foldl (fun fs p => fsWrite fs p.1 p.2) []

def EntryRowOKV (cfg : VolCfg) (k : YMKey) (r : Row) : Prop :=
  ymKeyOf r = some k ∧ passesVol cfg r = true ∧ RowDateValid r

/-- All rows parsed by `robust_read_csv` carry calendar dates. -/
def VolSrcValid (f : SrcFile) : Prop :=
  match robust_read_csv_ve f.src with
  | some fr => ∀ r ∈ fr.rows, RowDateValid r
  | none => True

instance (f : SrcFile) : Decidable (VolSrcValid f) := by
  unfold VolSrcValid
  rcases robust_read_csv_ve f.src with _ | fr <;> infer_instance

theorem volGroups_inv {cfg : VolCfg} {f : SrcFile}
    {gl : List (YMKey × List Row)} (hv : VolSrcValid f)
    (hres : volFileRes cfg f = .groups gl) :
    ∀ q ∈ gl, q.2 ≠ [] ∧ ∀ r ∈ q.2, EntryRowOKV cfg q.1 r := by
  unfold volFileRes at hres
  unfold VolSrcValid at hv
  by_cases hcsv : endsWithB f.name ".csv"
  · rw [if_neg (by simpa using hcsv)] at hres
    cases hread : robust_read_csv_ve f.src with
    | none => rw [hread] at hres; cases hres
    | some fr0 =>
      rw [hread] at hres hv
      dsimp only at hres hv
      cases hg : volFrameGroups cfg (cleanFrame fr0) with
      | error e => rw [hg] at hres; cases hres
      | ok gl2 =>
        rw [hg] at hres
        have hgl : gl = gl2 := (VolFileRes.groups.inj hres).symm
        subst hgl
        obtain ⟨-, hrest⟩ := volFrameGroups_ok hg
        rcases hrest with ⟨-, rfl⟩ | ⟨-, rfl⟩
        · intro q hq; cases hq
        · intro q hq
          have hq2 : q ∈ groupbyYM ((cleanFrame fr0).rows.filter
              (passesVol cfg)) := (List.mem_filter.mp hq).1
          refine ⟨groupbyYM_nonnil hq2, ?_⟩
          intro r hr
          have hsrc := groupbyYM_src hq2 r hr
          have hmemfil := List.mem_filter.mp hsrc
          exact ⟨groupbyYM_key hq2 r hr, hmemfil.2, hv r hmemfil.1⟩
  · rw [if_pos (by simpa using hcsv)] at hres
    cases hres

theorem volDictAux_inv (cfg : VolCfg) (files : List SrcFile)
    (hv : ∀ f ∈ files, VolSrcValid f) :
    ∀ fd fd2, volDictAux cfg fd files = .ok fd2 →
      (∀ p ∈ fd, p.2 ≠ [] ∧ ∀ r ∈ p.2, EntryRowOKV cfg p.1 r) →
      ∀ p ∈ fd2, p.2 ≠ [] ∧ ∀ r ∈ p.2, EntryRowOKV cfg p.1 r := by
  induction files with
  | nil =>
    intro fd fd2 h hfd
    have he : fd = fd2 := Except.ok.inj h
    subst he
    exact hfd
  | cons f fs ih =>
    intro fd fd2 h hfd
    have hvf := hv f (List.mem_cons_self f fs)
    have hvs : ∀ g ∈ fs, VolSrcValid g :=
      fun g hg => hv g (List.mem_cons_of_mem f hg)
    unfold volDictAux at h
    cases hres : volFileRes cfg f with
    | skipNotCsv =>
      rw [hres] at h
      exact ih hvs fd fd2 h hfd
    | skipRead =>
      rw [hres] at h
      exact ih hvs fd fd2 h hfd
    | err e => rw [hres] at h; cases h
    | groups gl =>
      rw [hres] at h
      dsimp only at h
      exact ih hvs _ fd2 h
        (foldl_dictAppend_inv _ gl fd hfd (volGroups_inv hvf hres))

theorem volDict_inv (cfg : VolCfg) (files : List SrcFile)
    (hv : ∀ f ∈ files, VolSrcValid f) {fd2 : YMDict}
    (h : volDict cfg files = .ok fd2) :
    ∀ p ∈ fd2, p.2 ≠ [] ∧ ∀ r ∈ p.2, EntryRowOKV cfg p.1 r :=
  volDictAux_inv cfg files hv [] fd2 h (by intro p hp; cases hp)

/-- The month component of every key of a completed `filter_vol_data`
dict is a 2-digit calendar month. -/
theorem volDict_key_month (cfg : VolCfg) (files : List SrcFile)
    (hv : ∀ f ∈ files, VolSrcValid f) {fd2 : YMDict}
    (h : volDict cfg files = .ok fd2) :
    ∀ p ∈ fd2, ∃ m, 1 ≤ m ∧ m ≤ 12 ∧ p.1.2 = monthStr m := by
  intro p hp
  obtain ⟨hne, hrows⟩ := volDict_inv cfg files hv h p hp
  cases h2 : p.2 with
  | nil => exact absurd h2 hne
  | cons r rs =>
    have hr : r ∈ p.2 := by rw [h2]; exact List.mem_cons_self r rs
    obtain ⟨hkey, hpass, hval⟩ := hrows r hr
    unfold ymKeyOf at hkey
    cases hd : r.date with
    | none => rw [hd] at hkey; cases hkey
    | some d =>
      rw [hd] at hkey
      have hk2 : (toString d.year, monthStr d.month) = p.1 :=
        Option.some.inj hkey
      obtain ⟨hm1, hm2⟩ := rowDateValid_some hval hd
      exact ⟨d.month, hm1, hm2, by rw [← hk2]⟩

theorem volDictAux_nodup (cfg : VolCfg) (files : List SrcFile) :
    ∀ fd fd2, volDictAux cfg fd files = .ok fd2 →
      (dictKeys fd).Nodup → (dictKeys fd2).Nodup := by
  induction files with
  | nil =>
    intro fd fd2 h hnd
    have he : fd = fd2 := Except.ok.inj h
    subst he
    exact hnd
  | cons f fs ih =>
    intro fd fd2 h hnd
    unfold volDictAux at h
    cases hres : volFileRes cfg f with
    | skipNotCsv => rw [hres] at h; exact ih fd fd2 h hnd
    | skipRead => rw [hres] at h; exact ih fd fd2 h hnd
    | err e => rw [hres] at h; cases h
    | groups gl =>
      rw [hres] at h
      dsimp only at h
      exact ih _ fd2 h (foldl_dictAppend_nodup gl fd hnd)

/-- With the same leading curve name, keys differing in the month
component get different `filter_vol_data` file names. -/
theorem volMonthlyName_inj {cfg : VolCfg} {k1 k2 : YMKey}
    (hne : k1.2 ≠ k2.2) :
    volMonthlyName cfg k1 ≠ volMonthlyName cfg k2 := by
  intro he
  apply hne
  have hd := congrArg String.data he
  unfold volMonthlyName at hd
  simp only [String.data_append, List.append_assoc] at hd
  have h2 := (List.append_inj hd rfl).2
  have h3 := (List.append_inj h2 rfl).2
  have h4 : k1.2.data ++ "_ewma_hist.csv".data
      = k2.2.data ++ "_ewma_hist.csv".data := h3
  exact String.ext (List.append_inj' h4 rfl).1

/-- In a duplicate-free dict, looking up an entry's key returns exactly
that entry's rows. -/
theorem dictGet_of_mem_nodup {fd : YMDict} (hnd : (dictKeys fd).Nodup)
    {p : YMKey × List Row} (hp : p ∈ fd) : dictGet fd p.1 = p.2 := by
  induction fd with
  | nil => cases hp
  | cons q fd ih =>
    rw [dictGet_cons]
    rcases List.mem_cons.mp hp with he | hmem
    · subst he; rw [if_pos rfl]
    · have hq : q.1 ≠ p.1 := by
        intro hqe
        have : p.1 ∈ dictKeys fd :=
          List.mem_map.mpr ⟨p, hmem, rfl⟩
        rw [← hqe] at this
        exact (List.nodup_cons.mp hnd).1 this
      rw [if_neg hq]
      exact ih (List.nodup_cons.mp hnd).2 hmem

/-! ### `volatility_surface.py` -/

/-- `volatility_surface.py:7-20`: size guard, single utf-8 parse,
emptiness guard; returns `None` instead of raising. -/
def robust_read_csv_vs (src : CsvSource) : Option Frame :=
  if src.size < 10 then none
  else
    match src.parseU8 with
    | .error _ => none
    | .ok df => if df.rows.isEmpty then none else some df

/-- The fixed strike-label lookup table (`volatility_surface.py:25-31`);
a label outside the table maps to nothing (pandas `.map` gives NaN). -/
def typeToMoneyness (t : String) : Option ℚ :=
  if t = "ATM - $1.00" then some (-1)
  else if t = "ATM - $0.75" then some (-3/4)
  else if t = "ATM - $0.50" then some (-1/2)
  else if t = "ATM - $0.25" then some (-1/4)
  else if t = "ATM" then some 0
  else if t = "ATM + $0.25" then some (1/4)
  else if t = "ATM + $0.50" then some (1/2)
  else if t = "ATM + $0.75" then some (3/4)
  else if t = "ATM + $1.00" then some 1
  else if t = "ATM + $1.25" then some (5/4)
  else if t = "ATM + $1.50" then some (3/2)
  else if t = "ATM + $1.75" then some (7/4)
  else if t = "ATM + $2.00" then some 2
  else none

/-- `df['Moneyness'] = df['Type'].map(type_to_moneyness)`: NaN stays
NaN, unmapped labels become NaN. -/
def rowMoneyness (r : Row) : Option ℚ := r.rtype.bind typeToMoneyness

structure SurfCfg where
  targetCurve : String
  targetMonth : Option String
  dateRange : Option (Date × Date)
  startDate : Option Date
  endDate : Option Date

/-- `volatility_surface.py:36`: a listed file is loaded iff it ends in
`.csv` and, when a month filter is given, the month string occurs in the
file name. -/
def surfSelected (tm : Option String) (name : String) : Bool :=
  endsWithB name ".csv" &&
    (match tm with
     | none => true
     | some m => pyIn m name)

/-- The per-file outcome of the load loop `volatility_surface.py:35-56`:
nothing for unselected/unreadable files or files without a date column;
otherwise all parsed rows.  `df['Type']`/`df['Mid']` are accessed before
the date-column check, so their absence raises an uncaught `KeyError`. -/
def surfFileRows (cfg : SurfCfg) (f : SrcFile) :
    Except String (Option (List Row)) :=
  if ¬ surfSelected cfg.targetMonth f.name then .ok none
  else
    match robust_read_csv_vs f.src with
    | none => .ok none
    | some fr0 =>
      let fr := cleanFrame fr0
      if "Type" ∉ fr.cols then .error "KeyError: Type"
      else if "Mid" ∉ fr.cols then .error "KeyError: Mid"
      else if "date" ∈ fr.cols ∨ "Curve_Date" ∈ fr.cols then
        .ok (some fr.rows)
      else .ok none

/-- `pd.concat(all_data)` over the load loop, first error aborts. -/
def surfAllRowsAux (cfg : SurfCfg) (acc : List Row) :
    List SrcFile → Except String (List Row)
  | [] => .ok acc
  | f :: fs =>
    match surfFileRows cfg f with
    | .error e => .error e
    | .ok none => surfAllRowsAux cfg acc fs
    | .ok (some rs) => surfAllRowsAux cfg (acc ++ rs) fs

def surfAllRows (cfg : SurfCfg) (files : List SrcFile) :
    Except String (List Row) :=
  surfAllRowsAux cfg [] files

/-- Date filtering `volatility_surface.py:66-72`: an explicit
`date_range` takes precedence, else `start_date`/`end_date` when both
are given, else no filtering.  NaT never satisfies a comparison. -/
def surfRangeFilter (cfg : SurfCfg) (rows : List Row) : List Row :=
  match cfg.dateRange with
  | some (sd, ed) =>
    rows.filter (fun r =>
      match r.date with
      | some d => dateLeB sd d && dateLeB d ed
      | none => false)
  | none =>
    match cfg.startDate, cfg.endDate with
    | some sd, some ed =>
      rows.filter (fun r =>
        match r.date with
        | some d => dateLeB sd d && dateLeB d ed
        | none => false)
    | _, _ => rows

/-- The rows aggregated into the surface-matrix cell `(d, m)`:
`pivot_table(index='date', columns='Moneyness', values='Mid')` groups by
the row's parsed date and derived moneyness; rows with NaT date or NaN
moneyness belong to no cell. -/
def pivotCellRows (rows : List Row) (d : Date) (m : ℚ) : List Row :=
  rows.filter (fun r =>
    decide (r.date = some d) && decide (rowMoneyness r = some m))

/-- The cell value: mean of the non-NaN `Mid`s (`aggfunc='mean'`), NaN
when no observation exists. -/
def pivotCellVal (rows : List Row) (d : Date) (m : ℚ) : Option ℚ :=
  let vals := definedVals ((pivotCellRows rows d m).map Row.mid)
  if vals.length = 0 then none else some (meanQ vals)

/-- The pivot's moneyness columns: the distinct non-NaN moneyness
values. -/
def pivotMoneyCols (rows : List Row) : List ℚ :=
  (rows.filterMap rowMoneyness).dedup

/-! ### `time_series_plotter.build_vol_time_series` -/

structure TSCfg where
  curveName : String
  month : Option String
  rollingWindow : Nat
  startDate : Option Date
  endDate : Option Date

/-- `time_series_plotter.py:19-24`: `.csv` files, and when a month
filter is given only names containing the month string. -/
def tsSelected (month : Option String) (name : String) : Bool :=
  endsWithB name ".csv" &&
    (match month with
     | none => true
     | some m => pyIn m name)

/-- The date-range mask (`time_series_plotter.py:46-49`), applied only
when both bounds are supplied; NaT fails the comparison. -/
def tsRangeOk (cfg : TSCfg) (r : Row) : Bool :=
  match cfg.startDate, cfg.endDate with
  | some sd, some ed =>
    match r.date with
    | some d => dateLeB sd d && dateLeB d ed
    | none => false
  | _, _ => true

/-- Row survival inside one file: the optional date range, then
`dropna(subset=['Mid'])`.  No condition mentions `Basis` or the month of
the row's date. -/
def tsKeptRows (cfg : TSCfg) (fr : Frame) : List Row :=
  (fr.rows.filter (tsRangeOk cfg)).filter (fun r => r.mid.isSome)

/-- The per-file outcome of `time_series_plotter.py:17-60`: the cleaned
header and surviving rows, or nothing (unselected, unreadable, empty,
no date column, no `Mid` column — that `KeyError` is caught by the
`try` — or no surviving rows). -/
def tsFileData (cfg : TSCfg) (f : SrcFile) :
    Option (List String × List Row) :=
  if ¬ tsSelected cfg.month f.name then none
  else
    match f.src.parseU8 with
    | .error _ => none
    | .ok fr0 =>
      if fr0.rows.isEmpty then none
      else
        let fr := cleanFrame fr0
        if "date" ∈ fr.cols ∨ "Curve_Date" ∈ fr.cols then
          if "Mid" ∈ fr.cols then
            if (tsKeptRows cfg fr).isEmpty then none
            else some (fr.cols, tsKeptRows cfg fr)
          else none
        else none

def tsCollect (cfg : TSCfg) (files : List SrcFile) :
    List (List String × List Row) :=
  files.filterMap (tsFileData cfg)

/-- `combined_df = pd.concat(all_data)`. -/
def tsCombinedRows (cfg : TSCfg) (files : List SrcFile) : List Row :=
  ((tsCollect cfg files).map Prod.snd).flatten

/-- The combined column set (pandas concat takes the union). -/
def tsCombinedCols (cfg : TSCfg) (files : List SrcFile) : List String :=
  (((tsCollect cfg files).map Prod.fst).flatten).dedup

/-- Row order for `combined_df.sort_values('date')`; NaT sorts last. -/
def rowDateLeB (a b : Row) : Bool :=
  match a.date, b.date with
  | some d1, some d2 => dateLeB d1 d2
  | some _, none => true
  | none, some _ => false
  | none, none => true

def tsSorted (cfg : TSCfg) (files : List SrcFile) : List Row :=
  sortLeB rowDateLeB (tsCombinedRows cfg files)

/-- `curve = combined_df['Basis'].iloc[0] if 'Basis' in
combined_df.columns else curve_name` (`time_series_plotter.py:71`),
after the date sort; a missing first `Basis` cell prints as `nan`. -/
def tsCurve (cfg : TSCfg) (files : List SrcFile) : String :=
  if "Basis" ∈ tsCombinedCols cfg files then
    match tsSorted cfg files with
    | r :: _ => pyStr r.basis
    | [] => cfg.curveName
  else cfg.curveName

/-- `period_label = month if month else f"{curve_name}_combined"`. -/
def periodLabel (cfg : TSCfg) : String :=
  match cfg.month with
  | some m => m
  | none => cfg.curveName ++ "_combined"

/-- `f"{curve}_{period_label}_time_series.xlsx"`. -/
def tsXlsxName (cfg : TSCfg) (files : List SrcFile) : String :=
  tsCurve cfg files ++ "_" ++ periodLabel cfg ++ "_time_series.xlsx"

/-- `f"{curve}_{period_label}_timeseries_rolling.png"` (EWMA branch). -/
def tsRollingPngName (cfg : TSCfg) (files : List SrcFile) : String :=
  tsCurve cfg files ++ "_" ++ periodLabel cfg ++ "_timeseries_rolling.png"

/-- The pivot index: distinct parsed dates, ascending (NaT dropped by
`groupby`/`pivot_table`). -/
def ewmaDates (rows : List Row) : List Date :=
  sortLeB dateLeB ((rows.filterMap Row.date).dedup)

def dateGroupRows (rows : List Row) (d : Date) : List Row :=
  rows.filter (fun r => decide (r.date = some d))

/-- `combined_df.groupby('date')['Mid'].mean()` as one column. -/
def ewmaPivotCol (rows : List Row) : List (Option ℚ) :=
  (ewmaDates rows).map (fun d =>
    let vals := definedVals ((dateGroupRows rows d).map Row.mid)
    if vals.length = 0 then none else some (meanQ vals))

/-- The surface-style pivot columns: distinct non-NaN `Contract_Month`
labels, ascending. -/
def contractCols (rows : List Row) : List String :=
  sortLeB strLeB ((rows.filterMap Row.contractMonth).dedup)

def contractPivotCol (rows : List Row) (cm : String) : List (Option ℚ) :=
  (ewmaDates rows).map (fun d =>
    let vals := definedVals
      ((rows.filter (fun r =>
        decide (r.date = some d) && decide (r.contractMonth = some cm))).map
          Row.mid)
    if vals.length = 0 then none else some (meanQ vals))

/-- A (date × series) matrix: the shared date index and the labelled
columns. -/
structure TSMat where
  dates : List Date
  cols : List (String × List (Option ℚ))
deriving DecidableEq, Repr

/-- STEP 3 (`time_series_plotter.py:73-85`): surface-style pivot when a
`Contract_Month` column exists, otherwise the single synthetic
`EWMA_Volatility` column. -/
def tsPivot (cfg : TSCfg) (files : List SrcFile) : TSMat :=
  let rows := tsCombinedRows cfg files
  if "Contract_Month" ∈ tsCombinedCols cfg files then
    ⟨ewmaDates rows,
      (contractCols rows).map (fun cm => (cm, contractPivotCol rows cm))⟩
  else
    ⟨ewmaDates rows, [("EWMA_Volatility", ewmaPivotCol rows)]⟩

/-- One cell of `pandas.rolling(window=w, min_periods=minp).mean()`:
the mean of the non-NaN observations among the `w` trailing entries,
when at least `max(minp, 1)` observations exist. -/
def rollCell (w minp : Nat) (xs : List (Option ℚ)) (i : Nat) : Option ℚ :=
  let vals := definedVals ((xs.take (i + 1)).drop (i + 1 - w))
  if max minp 1 ≤ vals.length then some (meanQ vals) else none

def pandasRollingMean (w minp : Nat) (xs : List (Option ℚ)) :
    List (Option ℚ) :=
  (List.range xs.length).map (rollCell w minp xs)

/-- STEP 4 (`time_series_plotter.py:87-90`):
`min_periods = min(rolling_window, len(pivot), 10)`, then
`pivot.rolling(window=rolling_window, min_periods=min_periods).mean()`. -/
def tsRolling (w : Nat) (M : TSMat) : TSMat :=
  ⟨M.dates, M.cols.map (fun c =>
    (c.1, pandasRollingMean w (min w (min M.dates.length 10)) c.2))⟩

/-- One cell of `DataFrame.diff()`: row minus predecessor, NaN when
either is missing and at the first row. -/
def diffCell (xs : List (Option ℚ)) (i : Nat) : Option ℚ :=
  match i with
  | 0 => none
  | Nat.succ j =>
    match (xs[j + 1]?).join, (xs[j]?).join with
    | some a, some b => some (a - b)
    | _, _ => none

def diffCol (xs : List (Option ℚ)) : List (Option ℚ) :=
  (List.range xs.length).map (diffCell xs)

/-- `daily_change = rolling.diff()` (`time_series_plotter.py:91`). -/
def tsDiff (M : TSMat) : TSMat :=
  ⟨M.dates, M.cols.map (fun c => (c.1, diffCol c.2))⟩

/-- The trailing window written independently: the defined entries at
indices `i+1-w .. i`, collected by index arithmetic. -/
def specWindowVals (w : Nat) (xs : List (Option ℚ)) (i : Nat) : List ℚ :=
  (List.range' (i + 1 - w) (min w (i + 1))).filterMap
    (fun j => (xs[j]?).join)

theorem pandasRollingMean_length (w minp : Nat) (xs : List (Option ℚ)) :
    (pandasRollingMean w minp xs).length = xs.length := by
  unfold pandasRollingMean
  rw [List.length_map, List.length_range]

theorem diffCol_length (xs : List (Option ℚ)) :
    (diffCol xs).length = xs.length := by
  unfold diffCol
  rw [List.length_map, List.length_range]

/-- The take/drop window of the source equals the index-arithmetic
window of the specification. -/
theorem definedVals_slice (w : Nat) (xs : List (Option ℚ)) (i : Nat)
    (h : i < xs.length) :
    definedVals ((xs.take (i + 1)).drop (i + 1 - w))
      = specWindowVals w xs i := by
  have hslice : (xs.take (i + 1)).drop (i + 1 - w)
      = (List.range' (i + 1 - w) (min w (i + 1))).map
          (fun j => (xs[j]?).getD none) := by
    apply List.ext_getElem?
    intro t
    rw [List.getElem?_drop, List.getElem?_take, List.getElem?_map]
    by_cases ht : t < min w (i + 1)
    · have hr : (List.range' (i + 1 - w) (min w (i + 1)))[t]?
          = some ((i + 1 - w) + t) := by
        simp [List.getElem?_range', ht]
      rw [hr]
      have hlt : (i + 1 - w) + t < i + 1 := by omega
      rw [if_pos hlt]
      have hlt2 : (i + 1 - w) + t < xs.length := by omega
      simp [List.getElem?_eq_getElem hlt2]
    · have hr : (List.range' (i + 1 - w) (min w (i + 1)))[t]? = none := by
        apply List.getElem?_eq_none
        rw [List.length_range']
        omega
      rw [hr]
      have hge : ¬ (i + 1 - w) + t < i + 1 := by omega
      rw [if_neg hge]
      simp
  rw [hslice]
  unfold specWindowVals definedVals
  rw [List.filterMap_map]
  congr 1
  funext j
  cases hx : xs[j]? <;> simp [hx]

theorem pandasRollingMean_cell (w minp : Nat) (xs : List (Option ℚ))
    (i : Nat) (h : i < xs.length) :
    (pandasRollingMean w minp xs)[i]? = some (rollCell w minp xs i) := by
  unfold pandasRollingMean
  rw [List.getElem?_map]
  have hr : (List.range xs.length)[i]? = some i := by
    simp [List.getElem?_range, h]
  rw [hr]
  rfl

theorem diffCol_cell (xs : List (Option ℚ)) (i : Nat)
    (h : i < xs.length) :
    (diffCol xs)[i]? = some (diffCell xs i) := by
  unfold diffCol
  rw [List.getElem?_map]
  have hr : (List.range xs.length)[i]? = some i := by
    simp [List.getElem?_range, h]
  rw [hr]
  rfl

theorem dictGet_volDict (cfg : VolCfg) (files : List SrcFile)
    (fd : YMDict) (h : volDict cfg files = Except.ok fd) (k : YMKey) :
    dictGet fd k = ((files.map (volKept cfg)).flatten).filter
      (fun r => decide (ymKeyOf r = some k)) := by
  have hx := dictGet_volDictAux cfg files [] fd h k
  simpa using hx

/-! ### The claims -/

/-- C1: in both filter stages every row emitted into a year-month bucket
has a `Curve_Date` whose year and month equal the bucket's key, each
retained row lands in exactly one bucket, and the bucket's content is
the key-filter of the concatenated retained rows — independent of which
file or folder a row came from. -/
theorem c1_year_month_bucket_grouping :
    (∀ (cfg : ExtractCfg) (files : List SrcFile) (k : YMKey),
      dictGet (extractDict cfg files) k
        = ((files.map (extractKept cfg)).flatten).filter
            (fun r => decide (ymKeyOf r = some k))) ∧
    (∀ (cfg : ExtractCfg) (files : List SrcFile) (k : YMKey) (r : Row),
      r ∈ dictGet (extractDict cfg files) k →
        ∃ d, r.date = some d ∧ toString d.year = k.1
          ∧ monthStr d.month = k.2) ∧
    (∀ (cfg : ExtractCfg) (files : List SrcFile) (k1 k2 : YMKey) (r : Row),
      r ∈ dictGet (extractDict cfg files) k1 →
      r ∈ dictGet (extractDict cfg files) k2 → k1 = k2) ∧
    (∀ (cfg : VolCfg) (files : List SrcFile) (fd : YMDict),
      volDict cfg files = Except.ok fd →
      ∀ k : YMKey, dictGet fd k
        = ((files.map (volKept cfg)).flatten).filter
            (fun r => decide (ymKeyOf r = some k))) ∧
    (∀ (cfg : VolCfg) (files : List SrcFile) (fd : YMDict),
      volDict cfg files = Except.ok fd →
      ∀ (k1 k2 : YMKey) (r : Row),
        r ∈ dictGet fd k1 → r ∈ dictGet fd k2 → k1 = k2) := by
  refine ⟨?_, ?_, ?_, ?_, ?_⟩
  · exact dictGet_extractDict
  · intro cfg files k r hr
    rw [dictGet_extractDict] at hr
    have hk := of_decide_eq_true (List.mem_filter.mp hr).2
    unfold ymKeyOf at hk
    cases hd : r.date with
    | none => rw [hd] at hk; cases hk
    | some d =>
      rw [hd] at hk
      have hk2 : (toString d.year, monthStr d.month) = k :=
        Option.some.inj hk
      exact ⟨d, rfl, by rw [← hk2], by rw [← hk2]⟩
  · intro cfg files k1 k2 r h1 h2
    rw [dictGet_extractDict] at h1 h2
    have e1 := of_decide_eq_true (List.mem_filter.mp h1).2
    have e2 := of_decide_eq_true (List.mem_filter.mp h2).2
    rw [e1] at e2
    exact Option.some.inj e2
  · exact dictGet_volDict
  · intro cfg files fd h k1 k2 r h1 h2
    rw [dictGet_volDict cfg files fd h k1] at h1
    rw [dictGet_volDict cfg files fd h k2] at h2
    have e1 := of_decide_eq_true (List.mem_filter.mp h1).2
    have e2 := of_decide_eq_true (List.mem_filter.mp h2).2
    rw [e1] at e2
    exact Option.some.inj e2

def c1Row : Row :=
  ⟨some "NYMEX", some "ATM", some "C", some ⟨2024, 3, 7⟩, some 1, none⟩

def c1Frame : Frame :=
  ⟨["Basis", "Type", "Call/Put", "Curve_Date", "Mid"], [c1Row]⟩

def c1File : SrcFile :=
  ⟨"data.csv", ⟨100, Except.ok c1Frame, Except.ok c1Frame,
    Except.error "u16"⟩⟩

def c1VolCfg : VolCfg := ⟨"2024", ["NYMEX"], none, none, none, none, none⟩

def c1Dict : YMDict := [(("2024", "03"), [c1Row])]

theorem c1_witness :
    volDict c1VolCfg [c1File] = Except.ok c1Dict ∧
    ∀ k : YMKey, dictGet c1Dict k
      = (([c1File].map (volKept c1VolCfg)).flatten).filter
          (fun r => decide (ymKeyOf r = some k)) :=
  ⟨by decide, fun k =>
    c1_year_month_bucket_grouping.2.2.2.1 c1VolCfg [c1File] c1Dict
      (by decide) k⟩

/-- C2: `extract_curve_data` skips a file missing a required column with
a diagnostic, but `filter_vol_data` accesses `df['Basis']` before any
column check, so the same file makes the whole stage raise an uncaught
`KeyError` — evaluated here on a frame with columns
`Type, Curve_Date, Mid`. -/
def c2Row : Row := ⟨none, some "ATM", none, some ⟨2024, 1, 5⟩, some 1, none⟩

def c2Frame : Frame := ⟨["Type", "Curve_Date", "Mid"], [c2Row]⟩

def c2File : SrcFile :=
  ⟨"bad.csv", ⟨100, Except.ok c2Frame, Except.ok c2Frame,
    Except.error "e"⟩⟩

def c2ExtractCfg : ExtractCfg := ⟨"2024", ["NYMEX"], ["ATM"], none⟩

def c2VolCfg : VolCfg := ⟨"2024", ["NYMEX"], none, none, none, none, none⟩

theorem c2_missing_column_crash :
    extractFileRes c2ExtractCfg c2File
      = ExtractFileRes.skipMissing ["Basis"] ∧
    volDict c2VolCfg [c2File] = Except.error "KeyError: Basis" :=
  ⟨by decide, by decide⟩

/-- C3 (counterexample): with a date range spanning two years,
`filter_vol_data` accumulates the distinct keys `2023-05` and `2024-05`,
both nonempty, yet writes both to the same path
`NYMEX_05_ewma_hist.csv`; the later write replaces the earlier one, so
the surviving file holds only the 2024 rows. -/
def c3Row1 : Row :=
  ⟨some "NYMEX", some "EWMA", some "E", some ⟨2023, 5, 10⟩, some 1, none⟩

def c3Row2 : Row :=
  ⟨some "NYMEX", some "EWMA", some "E", some ⟨2024, 5, 10⟩, some 2, none⟩

def c3Frame1 : Frame :=
  ⟨["Basis", "Type", "Call/Put", "Curve_Date", "Mid"], [c3Row1]⟩

def c3Frame2 : Frame :=
  ⟨["Basis", "Type", "Call/Put", "Curve_Date", "Mid"], [c3Row2]⟩

def c3File1 : SrcFile :=
  ⟨"a.csv", ⟨100, Except.error "e", Except.ok c3Frame1,
    Except.error "e"⟩⟩

def c3File2 : SrcFile :=
  ⟨"b.csv", ⟨100, Except.error "e", Except.ok c3Frame2,
    Except.error "e"⟩⟩

def c3Cfg : VolCfg :=
  ⟨"2024", ["NYMEX"], none, none, none, some ⟨2023, 5, 1⟩,
    some ⟨2024, 5, 31⟩⟩

def c3Dict : YMDict :=
  [(("2023", "05"), [c3Row1]), (("2024", "05"), [c3Row2])]

theorem c3_counterexample :
    volDict c3Cfg [c3File1, c3File2] = Except.ok c3Dict ∧
    (("2023", "05") : YMKey) ≠ ("2024", "05") ∧
    dictGet c3Dict ("2023", "05") = [c3Row1] ∧
    dictGet c3Dict ("2024", "05") = [c3Row2] ∧
    volMonthlyName c3Cfg ("2023", "05")
      = volMonthlyName c3Cfg ("2024", "05") ∧
    volFS c3Cfg c3Dict = [("NYMEX_05_ewma_hist.csv", [c3Row2])] :=
  ⟨by decide, by decide, by decide, by decide, by decide, by decide⟩

/-- C3 (amended): `extract_curve_data` writes exactly one artifact per
key, holding exactly that key's rows, at pairwise-distinct paths; in
`filter_vol_data` the path uses only the curve name and the month
component, so keys are written to distinct paths when they differ in
month — in particular whenever all keys share one year — while
same-month keys of different years collide. -/
theorem c3_monthly_artifact_paths :
    (∀ (cfg : ExtractCfg) (files : List SrcFile),
      (∀ f ∈ files, ExtractSrcValid f) →
      ((extractArtifacts cfg files).map Prod.fst).Nodup ∧
      ∀ p ∈ extractDict cfg files,
        (extractMonthlyName p.1, p.2) ∈ extractArtifacts cfg files ∧
        dictGet (extractDict cfg files) p.1 = p.2) ∧
    (∀ (cfg : VolCfg) (files : List SrcFile) (fd : YMDict),
      volDict cfg files = Except.ok fd →
      ∀ p1 ∈ fd, ∀ p2 ∈ fd, p1.1.1 = p2.1.1 → p1.1 ≠ p2.1 →
        volMonthlyName cfg p1.1 ≠ volMonthlyName cfg p2.1) := by
  constructor
  · intro cfg files hv
    have hnd := extractDict_keys_nodup cfg files
    have hshape := extractDict_key_shape cfg files hv
    constructor
    · have hmap : (extractArtifacts cfg files).map Prod.fst
          = (dictKeys (extractDict cfg files)).map extractMonthlyName := by
        unfold extractArtifacts dictKeys
        rw [List.map_map, List.map_map]
        rfl
      rw [hmap]
      apply List.Nodup.map_on ?_ hnd
      intro x hx y hy he
      obtain ⟨px, hpx, hpxe⟩ := List.mem_map.mp hx
      obtain ⟨py, hpy, hpye⟩ := List.mem_map.mp hy
      obtain ⟨-, mx, hmx1, hmx2, hmxe⟩ := hshape px hpx
      obtain ⟨-, my, hmy1, hmy2, hmye⟩ := hshape py hpy
      by_contra hne
      refine extractMonthlyName_inj ?_ ?_ hne he
      · rw [← hpxe, hmxe]
        exact (monthStr_two hmx1 hmx2).1
      · rw [← hpye, hmye]
        exact (monthStr_two hmy1 hmy2).1
    · intro p hp
      refine ⟨List.mem_map.mpr ⟨p, hp, rfl⟩, ?_⟩
      exact dictGet_of_mem_nodup hnd hp
  · intro cfg files fd h p1 hp1 p2 hp2 hyr hne
    apply volMonthlyName_inj
    intro hm
    apply hne
    exact Prod.ext hyr hm

def c3wFile : SrcFile :=
  ⟨"w.csv", ⟨100, Except.ok c3Frame2, Except.ok c3Frame2,
    Except.error "e"⟩⟩

def c3wExtractCfg : ExtractCfg := ⟨"2024", ["NYMEX"], ["EWMA"], none⟩

theorem c3_witness :
    (∀ f ∈ [c3wFile], ExtractSrcValid f) ∧
    (((extractArtifacts c3wExtractCfg [c3wFile]).map Prod.fst).Nodup ∧
      ∀ p ∈ extractDict c3wExtractCfg [c3wFile],
        (extractMonthlyName p.1, p.2)
            ∈ extractArtifacts c3wExtractCfg [c3wFile] ∧
        dictGet (extractDict c3wExtractCfg [c3wFile]) p.1 = p.2) :=
  ⟨by decide,
    c3_monthly_artifact_paths.1 c3wExtractCfg [c3wFile] (by decide)⟩

/-- C4: on a fresh output folder, the yearly combined file of
`extract_curve_data` holds a permutation (equal multiset) of the
concatenation of all monthly artifacts, and every monthly artifact
belongs to the run's year. -/
theorem c4_combined_union :
    ∀ (cfg : ExtractCfg) (files : List SrcFile),
      (∀ f ∈ files, ExtractSrcValid f) → FourDigitStr cfg.year →
      List.Perm (extractCombined cfg files)
        (((extractArtifacts cfg files).map Prod.snd).flatten) ∧
      ∀ p ∈ extractArtifacts cfg files, ∃ k : YMKey,
        k.1 = cfg.year ∧ p.1 = extractMonthlyName k ∧
        p.2 = dictGet (extractDict cfg files) k := by
  intro cfg files hv hy
  refine ⟨extractCombined_perm cfg files hv hy, ?_⟩
  intro p hp
  unfold extractArtifacts at hp
  obtain ⟨q, hq, rfl⟩ := List.mem_map.mp hp
  obtain ⟨hyear, -⟩ := extractDict_key_shape cfg files hv q hq
  exact ⟨q.1, hyear, rfl,
    (dictGet_of_mem_nodup (extractDict_keys_nodup cfg files) hq).symm⟩

theorem c4_witness :
    ((∀ f ∈ [c3wFile], ExtractSrcValid f) ∧
      FourDigitStr (c3wExtractCfg.year)) ∧
    (List.Perm (extractCombined c3wExtractCfg [c3wFile])
        (((extractArtifacts c3wExtractCfg [c3wFile]).map
          Prod.snd).flatten) ∧
      ∀ p ∈ extractArtifacts c3wExtractCfg [c3wFile], ∃ k : YMKey,
        k.1 = c3wExtractCfg.year ∧ p.1 = extractMonthlyName k ∧
        p.2 = dictGet (extractDict c3wExtractCfg [c3wFile]) k) :=
  ⟨⟨by decide, by decide⟩,
    c4_combined_union c3wExtractCfg [c3wFile] (by decide) (by decide)⟩

/-- C5 (counterexample): `vol_extractor`'s reader hands back a zero-row
parse as data instead of the no-data signal, and
`volatility_surface`'s reader tries no alternate encoding — a file that
only parses as utf-16 yields `None`. -/
def c5EmptyFrame : Frame := ⟨["Basis", "Type", "Curve_Date", "Mid"], []⟩

def c5Row : Row :=
  ⟨some "NYMEX", some "ATM", none, some ⟨2024, 2, 1⟩, some 3, none⟩

def c5U16Frame : Frame :=
  ⟨["Basis", "Type", "Curve_Date", "Mid"], [c5Row]⟩

def c5SrcHeaderOnly : CsvSource :=
  ⟨40, Except.error "e", Except.ok c5EmptyFrame, Except.error "e"⟩

def c5SrcU16 : CsvSource :=
  ⟨100, Except.error "UnicodeDecodeError", Except.error "e",
    Except.ok c5U16Frame⟩

theorem c5_counterexample :
    robust_read_csv_ve c5SrcHeaderOnly = some c5EmptyFrame ∧
    c5EmptyFrame.rows = [] ∧
    robust_read_csv_ve c5SrcHeaderOnly ≠ none ∧
    robust_read_csv_vs c5SrcU16 = none ∧
    c5SrcU16.parseU16 = Except.ok c5U16Frame ∧
    c5U16Frame.rows ≠ [] :=
  ⟨by decide, by decide, by decide, by decide, by decide, by decide⟩

/-- C5 (amended): `vol_extractor`'s reader returns the no-data signal
exactly when both encodings raise (no size threshold, zero-row results
returned as data); `volatility_surface`'s reader tries only utf-8 and
returns the no-data signal exactly for small files, parse failures, or
zero-row results.  Neither raises. -/
theorem c5_reader_characterization :
    ∀ src : CsvSource,
      ((robust_read_csv_ve src = none) ↔
        ((∃ e, src.parseU8sig = Except.error e) ∧
          (∃ e, src.parseU16 = Except.error e))) ∧
      (∀ fr, src.parseU8sig = Except.ok fr →
        robust_read_csv_ve src = some fr) ∧
      (∀ e fr, src.parseU8sig = Except.error e →
        src.parseU16 = Except.ok fr → robust_read_csv_ve src = some fr) ∧
      ((robust_read_csv_vs src = none) ↔
        (src.size < 10 ∨ (∃ e, src.parseU8 = Except.error e) ∨
          (∃ fr, src.parseU8 = Except.ok fr ∧ fr.rows = []))) := by
  intro src
  refine ⟨?_, ?_, ?_, ?_⟩
  · unfold robust_read_csv_ve
    cases h8 : src.parseU8sig with
    | ok fr => simp [h8]
    | error e =>
      cases h16 : src.parseU16 with
      | ok fr => simp [h8, h16]
      | error e2 => simp [h8, h16]
  · intro fr h8
    unfold robust_read_csv_ve
    rw [h8]
  · intro e fr h8 h16
    unfold robust_read_csv_ve
    rw [h8, h16]
  · unfold robust_read_csv_vs
    by_cases hs : src.size < 10
    · simp [hs]
    · rw [if_neg hs]
      cases h8 : src.parseU8 with
      | error e => simp [h8, hs]
      | ok fr =>
        dsimp only
        by_cases he : fr.rows.isEmpty
        · simp [h8, hs, he, List.isEmpty_iff.mp he]
        · rw [if_neg he]
          simp only [hs, false_or, h8]
          constructor
          · intro hx; cases hx
          · rintro (⟨e2, he2⟩ | ⟨fr2, hfr2, hnil⟩)
            · cases he2
            · have : fr = fr2 := Except.ok.inj hfr2
              subst this
              exact absurd (List.isEmpty_iff.mpr hnil) he

theorem c5_witness :
    (c5SrcU16.parseU8sig = Except.error "e" ∧
      c5SrcU16.parseU16 = Except.ok c5U16Frame) ∧
    robust_read_csv_ve c5SrcU16 = some c5U16Frame :=
  ⟨⟨by decide, by decide⟩,
    (c5_reader_characterization c5SrcU16).2.2.1 "e" c5U16Frame
      (by decide) (by decide)⟩

/-- C6: the Rolling matrix of `build_vol_time_series` is the trailing
mean over `rolling_window` rows per column, defined exactly when the
window holds at least `min(rolling_window, len(pivot), 10)`
observations. -/
theorem c6_rolling_min_periods :
    ∀ (w : Nat) (M : TSMat), 0 < w → M.dates ≠ [] →
      (∀ c ∈ M.cols, c.2.length = M.dates.length) →
      (tsRolling w M).dates = M.dates ∧
      ∀ nm xs, (nm, xs) ∈ M.cols →
        (nm, pandasRollingMean w (min w (min M.dates.length 10)) xs)
            ∈ (tsRolling w M).cols ∧
        ∀ i, i < xs.length →
          (pandasRollingMean w (min w (min M.dates.length 10)) xs)[i]?
            = some (if min w (min M.dates.length 10)
                  ≤ (specWindowVals w xs i).length
                then some (meanQ (specWindowVals w xs i)) else none) := by
  intro w M hw hne hlen
  refine ⟨rfl, ?_⟩
  intro nm xs hmem
  constructor
  · unfold tsRolling
    exact List.mem_map.mpr ⟨(nm, xs), hmem, rfl⟩
  · intro i hi
    rw [pandasRollingMean_cell _ _ _ _ hi]
    congr 1
    unfold rollCell
    rw [definedVals_slice w xs i hi]
    have hn : 0 < M.dates.length := List.length_pos.mpr hne
    have hminp : max (min w (min M.dates.length 10)) 1
        = min w (min M.dates.length 10) := by omega
    rw [hminp]

def c6Mat : TSMat :=
  ⟨[⟨2024, 1, 2⟩, ⟨2024, 1, 3⟩], [("EWMA_Volatility", [some 2, some 4])]⟩

theorem c6_witness :
    (0 < 2 ∧ c6Mat.dates ≠ [] ∧
      (∀ c ∈ c6Mat.cols, c.2.length = c6Mat.dates.length)) ∧
    ((tsRolling 2 c6Mat).dates = c6Mat.dates ∧
      ∀ nm xs, (nm, xs) ∈ c6Mat.cols →
        (nm, pandasRollingMean 2 (min 2 (min c6Mat.dates.length 10)) xs)
            ∈ (tsRolling 2 c6Mat).cols ∧
        ∀ i, i < xs.length →
          (pandasRollingMean 2 (min 2 (min c6Mat.dates.length 10)) xs)[i]?
            = some (if min 2 (min c6Mat.dates.length 10)
                  ≤ (specWindowVals 2 xs i).length
                then some (meanQ (specWindowVals 2 xs i)) else none)) :=
  ⟨⟨by decide, by decide, by decide⟩,
    c6_rolling_min_periods 2 c6Mat (by decide) (by decide) (by decide)⟩

def moneyLabels : List String :=
  ["ATM - $1.00", "ATM - $0.75", "ATM - $0.50", "ATM - $0.25", "ATM",
    "ATM + $0.25", "ATM + $0.50", "ATM + $0.75", "ATM + $1.00",
    "ATM + $1.25", "ATM + $1.50", "ATM + $1.75", "ATM + $2.00"]

/-- C7: the lookup sends `"ATM"` to 0.00, `"ATM - $0.50"` to −0.50 and
`"ATM + $0.25"` to 0.25; a label outside the table gets no moneyness,
and a row without moneyness sits in no cell of the surface matrix (the
pivot is total — it never fails). -/
theorem c7_moneyness_mapping :
    typeToMoneyness "ATM" = some 0 ∧
    typeToMoneyness "ATM - $0.50" = some (-1/2) ∧
    typeToMoneyness "ATM + $0.25" = some (1/4) ∧
    (∀ t : String, t ∉ moneyLabels → typeToMoneyness t = none) ∧
    (∀ r : Row, rowMoneyness r = none →
      ∀ (rows : List Row) (d : Date) (m : ℚ),
        r ∉ pivotCellRows rows d m) := by
  refine ⟨rfl, rfl, rfl, ?_, ?_⟩
  · intro t ht
    simp only [moneyLabels, List.mem_cons, List.not_mem_nil, or_false,
      not_or] at ht
    obtain ⟨h1, h2, h3, h4, h5, h6, h7, h8, h9, h10, h11, h12, h13⟩ := ht
    unfold typeToMoneyness
    rw [if_neg h1, if_neg h2, if_neg h3, if_neg h4, if_neg h5, if_neg h6,
      if_neg h7, if_neg h8, if_neg h9, if_neg h10, if_neg h11,
      if_neg h12, if_neg h13]
  · intro r hm rows d m hmem
    have h2 := (List.mem_filter.mp hmem).2
    simp only [Bool.and_eq_true, decide_eq_true_eq] at h2
    rw [hm] at h2
    cases h2.2

def c7Row : Row := ⟨some "NYMEX", some "HIST", none, some ⟨2024, 1, 2⟩,
  some 1, none⟩

theorem c7_witness :
    ("HIST" ∉ moneyLabels ∧ typeToMoneyness "HIST" = none) ∧
    (rowMoneyness c7Row = none ∧
      c7Row ∉ pivotCellRows [c7Row] ⟨2024, 1, 2⟩ 0) :=
  ⟨⟨by decide, c7_moneyness_mapping.2.2.2.1 "HIST" (by decide)⟩,
    ⟨by decide, c7_moneyness_mapping.2.2.2.2 c7Row (by decide)
      [c7Row] ⟨2024, 1, 2⟩ 0⟩⟩

/-- C8: Rolling and Daily-Change keep the Original pivot's date index,
column labels and column lengths, and the Daily-Change value at the
first row whose Rolling value is defined is undefined. -/
theorem c8_aligned_matrices :
    ∀ (cfg : TSCfg) (files : List SrcFile),
      ((tsRolling cfg.rollingWindow (tsPivot cfg files)).dates
          = (tsPivot cfg files).dates ∧
        (tsDiff (tsRolling cfg.rollingWindow (tsPivot cfg files))).dates
          = (tsPivot cfg files).dates) ∧
      ((tsRolling cfg.rollingWindow (tsPivot cfg files)).cols.map
            Prod.fst
          = (tsPivot cfg files).cols.map Prod.fst ∧
        (tsDiff (tsRolling cfg.rollingWindow
            (tsPivot cfg files))).cols.map Prod.fst
          = (tsPivot cfg files).cols.map Prod.fst) ∧
      (∀ nm xs, (nm, xs) ∈ (tsPivot cfg files).cols →
        ∃ ys, (nm, ys) ∈ (tsRolling cfg.rollingWindow
              (tsPivot cfg files)).cols ∧
          ys.length = xs.length ∧
          (nm, diffCol ys) ∈ (tsDiff (tsRolling cfg.rollingWindow
            (tsPivot cfg files))).cols ∧
          (diffCol ys).length = xs.length) ∧
      (∀ nm ys, (nm, ys) ∈ (tsRolling cfg.rollingWindow
            (tsPivot cfg files)).cols →
        ∀ k, k < ys.length → (∀ j, j < k → (ys[j]?).join = none) →
          ((ys[k]?).join).isSome = true →
          (diffCol ys)[k]? = some none) := by
  intro cfg files
  refine ⟨⟨rfl, rfl⟩, ⟨?_, ?_⟩, ?_, ?_⟩
  · unfold tsRolling
    rw [List.map_map]
    rfl
  · unfold tsDiff tsRolling
    rw [List.map_map, List.map_map]
    rfl
  · intro nm xs hmem
    refine ⟨pandasRollingMean cfg.rollingWindow
      (min cfg.rollingWindow (min (tsPivot cfg files).dates.length 10))
        xs, ?_, ?_, ?_, ?_⟩
    · unfold tsRolling
      exact List.mem_map.mpr ⟨(nm, xs), hmem, rfl⟩
    · exact pandasRollingMean_length _ _ _
    · unfold tsDiff
      apply List.mem_map.mpr
      refine ⟨(nm, pandasRollingMean cfg.rollingWindow
        (min cfg.rollingWindow
          (min (tsPivot cfg files).dates.length 10)) xs), ?_, rfl⟩
      unfold tsRolling
      exact List.mem_map.mpr ⟨(nm, xs), hmem, rfl⟩
    · rw [diffCol_length, pandasRollingMean_length]
  · intro nm ys hmem k hk hfirst hdef
    rw [diffCol_cell ys k hk]
    congr 1
    cases k with
    | zero => rfl
    | succ j =>
      have h0 : (ys[j]?).join = none := hfirst j (Nat.lt_succ_self j)
      have hd : diffCell ys (j + 1)
          = (match (ys[j + 1]?).join, (ys[j]?).join with
             | some a, some b => some (a - b)
             | _, _ => none) := rfl
      rw [hd, h0]
      rcases (ys[j + 1]?).join with _ | a <;> rfl

def c8Row : Row :=
  ⟨some "NYMEX", some "EWMA", none, some ⟨2024, 1, 2⟩, some 2, none⟩

def c8Frame : Frame := ⟨["Basis", "date", "Mid"], [c8Row]⟩

def c8File : SrcFile :=
  ⟨"ewma.csv", ⟨100, Except.ok c8Frame, Except.ok c8Frame,
    Except.error "e"⟩⟩

def c8Cfg : TSCfg := ⟨"NYMEX", none, 21, none, none⟩

def c8Col : List (Option ℚ) := ewmaPivotCol (tsCombinedRows c8Cfg [c8File])

def c8Ys : List (Option ℚ) :=
  pandasRollingMean c8Cfg.rollingWindow
    (min c8Cfg.rollingWindow (min (tsPivot c8Cfg [c8File]).dates.length 10))
    c8Col

theorem c8_witness :
    (("EWMA_Volatility", c8Ys)
        ∈ (tsRolling c8Cfg.rollingWindow (tsPivot c8Cfg [c8File])).cols ∧
      0 < c8Ys.length ∧ ((c8Ys[0]?).join).isSome = true) ∧
    (diffCol c8Ys)[0]? = some none := by
  have hcols : (tsRolling c8Cfg.rollingWindow
      (tsPivot c8Cfg [c8File])).cols = [("EWMA_Volatility", c8Ys)] := rfl
  have hmem : ("EWMA_Volatility", c8Ys)
      ∈ (tsRolling c8Cfg.rollingWindow (tsPivot c8Cfg [c8File])).cols := by
    rw [hcols]
    exact List.mem_singleton.mpr rfl
  have hlen : 0 < c8Ys.length := by decide
  have hdef : ((c8Ys[0]?).join).isSome = true := rfl
  exact ⟨⟨hmem, hlen, hdef⟩,
    (c8_aligned_matrices c8Cfg [c8File]).2.2.2 "EWMA_Volatility" c8Ys hmem
      0 hlen (fun j hj => absurd hj (Nat.not_lt_zero j)) hdef⟩

/-- Change only the `Basis` field of a row. -/
def mapBasisRow (g : Option String → Option String) (r : Row) : Row :=
  { r with basis := g r.basis }

def mapBasisFrame (g : Option String → Option String) (fr : Frame) :
    Frame :=
  ⟨fr.cols, fr.rows.map (mapBasisRow g)⟩

/-- C9: `build_vol_time_series` never filters on the curve name — row
survival commutes with any rewriting of `Basis`, every surviving row
with a parsed date feeds the Original matrix's cell at its date — and
the workbook/image names use the `Basis` value of the first row of the
date-sorted combined data, falling back to the `curve_name` parameter
exactly when no `Basis` column exists. -/
theorem c9_no_curve_name_filter :
    (∀ (cfg : TSCfg) (g : Option String → Option String) (fr : Frame),
      tsKeptRows cfg (mapBasisFrame g fr)
        = (tsKeptRows cfg fr).map (mapBasisRow g)) ∧
    (∀ (cfg : TSCfg) (files : List SrcFile) (r : Row) (d : Date),
      r ∈ tsCombinedRows cfg files → r.date = some d →
        d ∈ ewmaDates (tsCombinedRows cfg files) ∧
        r ∈ dateGroupRows (tsCombinedRows cfg files) d) ∧
    (∀ (cfg : TSCfg) (files : List SrcFile) (r : Row) (rest : List Row),
      "Basis" ∈ tsCombinedCols cfg files →
      tsSorted cfg files = r :: rest →
      tsXlsxName cfg files
          = pyStr r.basis ++ "_" ++ periodLabel cfg
              ++ "_time_series.xlsx" ∧
      tsRollingPngName cfg files
          = pyStr r.basis ++ "_" ++ periodLabel cfg
              ++ "_timeseries_rolling.png") ∧
    (∀ (cfg : TSCfg) (files : List SrcFile),
      "Basis" ∉ tsCombinedCols cfg files →
      tsXlsxName cfg files
        = cfg.curveName ++ "_" ++ periodLabel cfg
            ++ "_time_series.xlsx") := by
  refine ⟨?_, ?_, ?_, ?_⟩
  · intro cfg g fr
    unfold tsKeptRows mapBasisFrame
    rw [List.filter_map, List.filter_map]
    have hq : (tsRangeOk cfg) ∘ (mapBasisRow g) = tsRangeOk cfg := by
      funext r
      unfold tsRangeOk mapBasisRow
      rcases cfg.startDate with _ | sd <;>
        rcases cfg.endDate with _ | ed <;> rfl
    have hp : ((fun r : Row => r.mid.isSome) ∘ (mapBasisRow g))
        = (fun r : Row => r.mid.isSome) := by
      funext r
      rfl
    rw [hq, hp]
  · intro cfg files r d hr hd
    constructor
    · unfold ewmaDates
      rw [(sortLeB_perm dateLeB _).mem_iff, List.mem_dedup,
        List.mem_filterMap]
      exact ⟨r, hr, hd⟩
    · exact List.mem_filter.mpr ⟨hr, by simp [hd]⟩
  · intro cfg files r rest hb hsort
    unfold tsXlsxName tsRollingPngName tsCurve
    rw [if_pos hb, hsort]
    exact ⟨rfl, rfl⟩
  · intro cfg files hnb
    unfold tsXlsxName tsCurve
    rw [if_neg hnb]

def c9RowA : Row :=
  ⟨some "HH", some "EWMA", none, some ⟨2024, 1, 3⟩, some 2, none⟩

def c9RowB : Row :=
  ⟨some "NYMEX", some "EWMA", none, some ⟨2024, 1, 5⟩, some 3, none⟩

def c9Frame : Frame := ⟨["Basis", "date", "Mid"], [c9RowB, c9RowA]⟩

def c9File : SrcFile :=
  ⟨"ewma.csv", ⟨100, Except.ok c9Frame, Except.ok c9Frame,
    Except.error "e"⟩⟩

def c9Cfg : TSCfg := ⟨"PARAM", none, 21, none, none⟩

theorem c9_witness :
    (c9RowA ∈ tsCombinedRows c9Cfg [c9File] ∧
      c9RowA.date = some ⟨2024, 1, 3⟩ ∧
      "Basis" ∈ tsCombinedCols c9Cfg [c9File] ∧
      tsSorted c9Cfg [c9File] = c9RowA :: [c9RowB]) ∧
    ((⟨2024, 1, 3⟩ : Date) ∈ ewmaDates (tsCombinedRows c9Cfg [c9File]) ∧
      c9RowA ∈ dateGroupRows (tsCombinedRows c9Cfg [c9File])
        ⟨2024, 1, 3⟩) ∧
    (tsXlsxName c9Cfg [c9File]
        = pyStr c9RowA.basis ++ "_" ++ periodLabel c9Cfg
            ++ "_time_series.xlsx" ∧
      tsRollingPngName c9Cfg [c9File]
        = pyStr c9RowA.basis ++ "_" ++ periodLabel c9Cfg
            ++ "_timeseries_rolling.png") :=
  ⟨⟨by decide, by decide, by decide, by decide⟩,
    c9_no_curve_name_filter.2.1 c9Cfg [c9File] c9RowA ⟨2024, 1, 3⟩
      (by decide) (by decide),
    c9_no_curve_name_filter.2.2.1 c9Cfg [c9File] c9RowA [c9RowB]
      (by decide) (by decide)⟩

/-- C10 (counterexample): with month filter `"01"`, the file named
`2024-01.csv` is selected, but its row with a non-numeric `Mid` is
dropped, so an included file does not contribute all of its rows; the
row dated in February is retained despite the January filter. -/
def c10RowFeb : Row :=
  ⟨some "NYMEX", some "HIST", none, some ⟨2024, 2, 15⟩, some 1, none⟩

def c10RowBad : Row :=
  ⟨some "NYMEX", some "HIST", none, some ⟨2024, 1, 10⟩, none, none⟩

def c10Frame : Frame :=
  ⟨["Basis", "date", "Mid"], [c10RowFeb, c10RowBad]⟩

def c10File : SrcFile :=
  ⟨"2024-01.csv", ⟨100, Except.ok c10Frame, Except.ok c10Frame,
    Except.error "e"⟩⟩

def c10Cfg : TSCfg := ⟨"NYMEX", some "01", 21, none, none⟩

theorem c10_counterexample :
    tsSelected (some "01") "2024-01.csv" = true ∧
    c10RowBad ∈ c10Frame.rows ∧
    tsFileData c10Cfg c10File
      = some (["Basis", "date", "Mid"], [c10RowFeb]) :=
  ⟨by decide, by decide, by decide⟩

/-- C10 (amended): among `.csv` names a file passes the month filter iff
no month is given or the month string is a substring of the name (both
stages); a selected readable surface file with its required columns
contributes every row; the time-series stage keeps exactly the rows
passing the optional date range and the numeric-`Mid` check — the month
of a row's date is never consulted. -/
theorem c10_month_filename_filter :
    (∀ (tm : Option String) (name : String),
      endsWithB name ".csv" = true →
      ((surfSelected tm name = true ↔
          (tm = none ∨ ∃ m, tm = some m ∧ pyIn m name = true)) ∧
        (tsSelected tm name = true ↔
          (tm = none ∨ ∃ m, tm = some m ∧ pyIn m name = true)))) ∧
    (∀ (cfg : SurfCfg) (f : SrcFile) (fr0 : Frame),
      surfSelected cfg.targetMonth f.name = true →
      robust_read_csv_vs f.src = some fr0 →
      "Type" ∈ (cleanFrame fr0).cols →
      "Mid" ∈ (cleanFrame fr0).cols →
      ("date" ∈ (cleanFrame fr0).cols ∨
        "Curve_Date" ∈ (cleanFrame fr0).cols) →
      surfFileRows cfg f = Except.ok (some (cleanFrame fr0).rows)) ∧
    (∀ (cfg : TSCfg) (fr : Frame) (r : Row),
      r ∈ tsKeptRows cfg fr ↔
        (r ∈ fr.rows ∧ tsRangeOk cfg r = true ∧ r.mid.isSome = true)) := by
  refine ⟨?_, ?_, ?_⟩
  · intro tm name hend
    constructor
    · unfold surfSelected
      rw [hend, Bool.true_and]
      cases tm with
      | none => simp
      | some m => simp
    · unfold tsSelected
      rw [hend, Bool.true_and]
      cases tm with
      | none => simp
      | some m => simp
  · intro cfg f fr0 hsel hread hType hMid hdate
    unfold surfFileRows
    rw [if_neg (fun hc => hc hsel), hread]
    dsimp only
    rw [if_neg (not_not_intro hType), if_neg (not_not_intro hMid),
      if_pos hdate]
  · intro cfg fr r
    unfold tsKeptRows
    constructor
    · intro h
      have h1 := List.mem_filter.mp h
      have h2 := List.mem_filter.mp h1.1
      exact ⟨h2.1, h2.2, h1.2⟩
    · rintro ⟨h1, h2, h3⟩
      exact List.mem_filter.mpr ⟨List.mem_filter.mpr ⟨h1, h2⟩, h3⟩

theorem c10_witness :
    (endsWithB "2024-01.csv" ".csv" = true ∧
      tsSelected (some "01") "2024-01.csv" = true ∧
      c10RowFeb ∈ tsKeptRows c10Cfg c10Frame) ∧
    ((some "01" = none ∨
        ∃ m, some "01" = some m ∧ pyIn m "2024-01.csv" = true) ∧
      (c10RowFeb ∈ c10Frame.rows ∧ tsRangeOk c10Cfg c10RowFeb = true ∧
        c10RowFeb.mid.isSome = true)) :=
  ⟨⟨by decide, by decide, by decide⟩,
    ((c10_month_filename_filter.1 (some "01") "2024-01.csv"
        (by decide)).2).mp (by decide),
    (c10_month_filename_filter.2.2 c10Cfg c10Frame c10RowFeb).mp
      (by decide)⟩

end VolPipeline
